import Mathlib

/-
Verification of the markdown editor's document & render caching layer.

Shallow embedding of:
  - src/core/document_manager.py  (DocumentManager: document/metadata/image
    caches, LRU eviction, lazy loading, image optimize/decompress,
    update/delete with SQLite transaction semantics)
  - src/ui/preview_widget.py      (PreviewWidget: HTML cache, render queue
    with debounced coalescing, incremental block parsing, block cache)

Modelling conventions:
  - Python dicts are insertion-ordered; they are modelled as association
    lists (List (key, value)): assignment replaces in place or appends,
    `next(iter(d))` is the head, deletion filters.
  - `datetime.now()` is modelled by a monotone counter `now` carried in the
    state; each sample returns the current value and advances the clock.
  - Byte strings are List Nat; the gzip compressor/decompressor of the
    standard library is an external collaborator and is a parameter
    (compress : List Nat -> List Nat, decompress : List Nat -> Option
    (List Nat), where `none` models a raised exception).
  - Cache-key strings f"{id}_{load_content}" / f"content_{id}" /
    f"image_{id}" are modelled by inductive key types isomorphic to the
    strings the source actually builds (digits never contain '_', so
    `key.startswith(f"{id}_")` holds exactly for the f"{id}_{lc}" keys of
    the same id, and never for "content_..." / "image_..." keys).
-/

/-! ## Python dict as insertion-ordered association list -/

def dictGet {κ α : Type} [DecidableEq κ] (k : κ) (l : List (κ × α)) : Option α :=
  (l.find? (fun p => decide (p.1 = k))).map (·.2)

def dictSet {κ α : Type} [DecidableEq κ] (k : κ) (v : α) (l : List (κ × α)) : List (κ × α) :=
  if l.any (fun p => decide (p.1 = k)) then
    l.map (fun p => if p.1 = k then (k, v) else p)
  else l ++ [(k, v)]

def dictDel {κ α : Type} [DecidableEq κ] (k : κ) (l : List (κ × α)) : List (κ × α) :=
  l.filter (fun p => decide (p.1 ≠ k))

def dropKeys {κ α : Type} [DecidableEq κ] (ks : List κ) (l : List (κ × α)) : List (κ × α) :=
  ks.foldl (fun c k => dictDel k c) l

/-! ## Python sorted() by value: a stable sort on the Nat timestamp -/

def entryLe {κ : Type} (p q : κ × Nat) : Prop := p.2 ≤ q.2

instance {κ : Type} : DecidableRel (@entryLe κ) := fun p q => Nat.decLe p.2 q.2

instance {κ : Type} : IsTotal (κ × Nat) entryLe := ⟨fun a b => Nat.le_total a.2 b.2⟩

instance {κ : Type} : IsTrans (κ × Nat) entryLe := ⟨fun _ _ _ => Nat.le_trans⟩

/-- Python's sorted(d.items(), key=lambda x: x[1]) is a stable sort by the
timestamp; any two stable sorts with the same key agree, so insertion sort
gives the same list as Python's stable mergesort. -/
def sortByTime {κ : Type} (l : List (κ × Nat)) : List (κ × Nat) :=
  List.insertionSort entryLe l

/-! ## Python string helpers (str.strip, str.split, '\n'.join, startswith),
defined structurally over the character list so that the kernel can
evaluate them. -/

def isPySpace (c : Char) : Bool :=
  c = ' ' || c = '\t' || c = '\n' || c = '\r' || c = '\x0b' || c = '\x0c'

def stripChars (l : List Char) : List Char :=
  ((l.dropWhile isPySpace).reverse.dropWhile isPySpace).reverse

/-- Python str.strip() (ASCII whitespace; the inputs here contain no other). -/
def pyStrip (s : String) : String := String.mk (stripChars s.data)

def splitNlChars : List Char → List (List Char)
  | [] => [[]]
  | c :: cs =>
    match splitNlChars cs with
    | [] => [[]]
    | h :: t => if c = '\n' then [] :: h :: t else (c :: h) :: t

/-- Python content.split('\n'). -/
def pySplitLines (s : String) : List String := (splitNlChars s.data).map String.mk

/-- Python '\n'.join(parts). -/
def joinNl : List String → String
  | [] => ""
  | [x] => x
  | x :: xs => x ++ "\n" ++ joinNl xs

/-- Python s.startswith(p). -/
def strStartsWith (s p : String) : Bool := p.data.isPrefixOf s.data

/-! ## Image optimizer (document_manager.py lines 359-402)

The gzip codec is the standard library, an external collaborator: it enters
as a parameter. `_optimize_image_data` never raises for the operations
modelled (compression of in-memory bytes), so its try/except is silent;
`_decompress_image_data`'s except arm (malformed gzip payload) is modelled
by the decompressor returning `none`. -/

/-- The bytes of the magic header b'GZIP_COMPRESSED:' (16 ASCII bytes). -/
def gzipMagicMarker : List Nat :=
  [71, 90, 73, 80, 95, 67, 79, 77, 80, 82, 69, 83, 83, 69, 68, 58]

/-- Translation of _optimize_image_data. The Python size test
`len(compressed) < len(data) * 0.8` compares an integer against the real
0.8*n; for integers this is the exact rational comparison 5*c < 4*n,
which is how it is written here. -/
def optimizeImageData (gzipCompress : List Nat → List Nat) (imageData : List Nat) : List Nat :=
  if imageData.length < 100 * 1024 then imageData
  else if imageData.length > 500 * 1024 then
    let compressedData := gzipCompress imageData
    if compressedData.length * 5 < imageData.length * 4 then
      gzipMagicMarker ++ compressedData
    else imageData
  else imageData

/-- Translation of _decompress_image_data: strip the 16-byte magic header and
decompress; on a decompression exception (`none`) fall back to returning the
input; without the header return the input unchanged. -/
def decompressImageData (gzipDecompress : List Nat → Option (List Nat))
    (imageData : List Nat) : List Nat :=
  if gzipMagicMarker.isPrefixOf imageData then
    match gzipDecompress (imageData.drop 16) with
    | some out => out
    | none => imageData
  else imageData

/-! ## DocumentManager (document_manager.py)

Cache keys. The source builds string keys; on the key space the manager
generates these strings are in bijection with the inductive types below:
  DKey.pair id lc     <->  f"{id}_{load_content}"   ("5_True" / "5_False")
  DKey.content id     <->  f"content_{id}"
  AKey.image id       <->  f"image_{id}"
  AKey.content id     <->  f"content_{id}"
Decimal digit strings contain no '_', so "a_..." equals a prefix "b_" test
iff a = b, and "content_..." / "image_..." never start with a digit. -/

inductive DKey : Type
  | pair (id : Nat) (loadContent : Bool)
  | content (id : Nat)
deriving DecidableEq

inductive AKey : Type
  | image (id : Nat)
  | content (id : Nat)
deriving DecidableEq

/-- Python key.startswith('image_') on the rendered access-time keys. -/
def AKey.isImage : AKey → Bool
  | .image _ => true
  | .content _ => false

/-- String equality between a rendered access-time key and a rendered
document-cache key: "content_i" = "content_j" iff i = j; "image_i" never
equals a document-cache key ("i_True", "i_False" or "content_i"). -/
def akeyMatchesDKey (a : AKey) (k : DKey) : Bool :=
  match a, k with
  | .content i, .content j => decide (i = j)
  | _, _ => false

/-- A row of the documents table. -/
structure DocRow where
  id : Nat
  title : String
  content : String
  createdAt : Nat
  updatedAt : Nat
deriving DecidableEq

/-- A row of the images table. -/
structure ImageRow where
  id : Nat
  documentId : Nat
  filename : String
  data : List Nat
deriving DecidableEq

/-- The in-memory Document object (document_manager.py lines 18-27).
Python: content_length = content_length or (len(content) if content else 0)
(`or` falls through on 0/None); _is_content_loaded = content is not None
and content != "". -/
structure DocumentObj where
  id : Nat
  title : String
  content : String
  createdAt : Nat
  updatedAt : Nat
  contentLength : Nat
  isContentLoaded : Bool
deriving DecidableEq

def mkDocument (id : Nat) (title content : String) (createdAt updatedAt clen : Nat) :
    DocumentObj :=
  { id := id, title := title, content := content, createdAt := createdAt,
    updatedAt := updatedAt,
    contentLength := if clen ≠ 0 then clen else content.length,
    isContentLoaded := content ≠ "" }

/-- Values held by the _document_cache dict: full Document objects under
"id_True"/"id_False" keys, lightweight CachedDocument objects (content
only) under "content_id" keys; both expose a .content attribute. -/
inductive DCVal : Type
  | doc (d : DocumentObj)
  | cachedContent (content : String)
deriving DecidableEq

/-- Python `.content` on a cached value (defined on both shapes). -/
def DCVal.contentOf : DCVal → String
  | .doc d => d.content
  | .cachedContent c => c

/-- DocumentManager state: the SQLite tables plus every cache dict and the
access-time dict, with the configured constants from __init__ and the
clock used to model datetime.now(). -/
structure DMState where
  store : List DocRow
  imageStore : List ImageRow
  docCache : List (DKey × DCVal)
  metaCache : List (Nat × DocumentObj)
  imageCache : List (Nat × (String × List Nat))
  accessTimes : List (AKey × Nat)
  largeThreshold : Nat
  cacheMax : Nat
  imageCacheMax : Nat
  now : Nat
deriving DecidableEq

/-- State after __init__ with pre-populated tables: empty caches,
_large_document_threshold 50000, _cache_max_size 100,
_image_cache_max_size 50. -/
def initDMState (store : List DocRow) (imageStore : List ImageRow) : DMState :=
  { store := store, imageStore := imageStore, docCache := [], metaCache := [],
    imageCache := [], accessTimes := [], largeThreshold := 50000,
    cacheMax := 100, imageCacheMax := 50, now := 0 }

inductive DMErr : Type
  | validation
  | notFound (id : Nat)
deriving DecidableEq

/-- SELECT ... FROM documents WHERE id = ? -/
def findRow (st : DMState) (docId : Nat) : Option DocRow :=
  st.store.find? (fun d => decide (d.id = docId))

/-- _update_access_time: self._access_times[cache_key] = datetime.now(). -/
def updateAccessTime (key : AKey) (st : DMState) : DMState :=
  { st with accessTimes := dictSet key st.now st.accessTimes, now := st.now + 1 }

/-- _cache_document (lines 535-543): if the cache is full, delete the
first-inserted key (next(iter(dict))), then assign. -/
def cacheDocument (key : DKey) (v : DCVal) (st : DMState) : DMState :=
  let cache :=
    if st.docCache.length ≥ st.cacheMax then
      match st.docCache with
      | [] => st.docCache
      | (k0, _) :: _ => dictDel k0 st.docCache
    else st.docCache
  { st with docCache := dictSet key v cache }

/-- _evict_lru_documents (lines 491-511). With no access-time data: delete
the first max(1, _cache_max_size // 4) cache keys in insertion order.
Otherwise: sort ALL access-time entries (document-content and image keys
alike) by timestamp and take the oldest max(1, n // 4); delete each from
the document cache where the (string) key matches, and from the
access-time dict. -/
def evictLruDocuments (st : DMState) : DMState :=
  if st.accessTimes.isEmpty then
    let entriesToRemove := max 1 (st.cacheMax / 4)
    { st with docCache := dropKeys ((st.docCache.map (·.1)).take entriesToRemove) st.docCache }
  else
    let sortedKeys := sortByTime st.accessTimes
    let entriesToRemove := max 1 (sortedKeys.length / 4)
    let victims := (sortedKeys.take entriesToRemove).map (·.1)
    { st with
        docCache := st.docCache.filter
          (fun p => !(victims.any (fun a => akeyMatchesDKey a p.1))),
        accessTimes := st.accessTimes.filter
          (fun p => !(victims.any (fun a => decide (a = p.1)))) }

/-- One iteration of the _evict_lru_images deletion loop: parse the image id
out of the key (int(key.split('_')[1])) and delete the cache entry and the
access-time record. Victim keys always carry the image_ tag, so the content
arm is unreachable there. -/
def evictImageStep (s : DMState) (a : AKey) : DMState :=
  match a with
  | AKey.image i =>
    { s with imageCache := dictDel i s.imageCache, accessTimes := dictDel a s.accessTimes }
  | AKey.content _ => { s with accessTimes := dictDel a s.accessTimes }

/-- _evict_lru_images (lines 554-576): filter access times to image_ keys;
with none, delete the single first-inserted image; otherwise delete the
oldest max(1, n // 4) image keys from the image cache and access times. -/
def evictLruImages (st : DMState) : DMState :=
  let imageAccessTimes := st.accessTimes.filter (fun p => p.1.isImage)
  if imageAccessTimes.isEmpty then
    match st.imageCache with
    | [] => st
    | (i0, _) :: _ => { st with imageCache := dictDel i0 st.imageCache }
  else
    let sortedKeys := sortByTime imageAccessTimes
    let entriesToRemove := max 1 (sortedKeys.length / 4)
    let victims := (sortedKeys.take entriesToRemove).map (·.1)
    victims.foldl evictImageStep st

/-- _cache_image (lines 545-552). -/
def cacheImage (imageId : Nat) (imageData : String × List Nat) (st : DMState) : DMState :=
  let st1 := if st.imageCache.length ≥ st.imageCacheMax then evictLruImages st else st
  updateAccessTime (AKey.image imageId)
    { st1 with imageCache := dictSet imageId imageData st1.imageCache }

/-- get_document (lines 133-190). The extra SELECT LENGTH for the "large
document" log message has no state effect and is not modelled. In the
first match arm a "content_id" key can never collide with the "id_lc"
lookup key, so the .cachedContent case is unreachable; Python would return
the CachedDocument object there, which has no Document fields. -/
def getDocument (docId : Nat) (loadContent : Bool) (st : DMState) :
    DMState × Option DocumentObj :=
  let key := DKey.pair docId loadContent
  match dictGet key st.docCache with
  | some v =>
    (st, some (match v with
      | .doc d => d
      | .cachedContent c => mkDocument 0 "" c 0 0 c.length))
  | none =>
    if ¬loadContent ∧ (dictGet docId st.metaCache).isSome then
      (st, dictGet docId st.metaCache)
    else
      match findRow st docId with
      | none => (st, none)
      | some row =>
        if loadContent then
          let doc := mkDocument row.id row.title row.content row.createdAt row.updatedAt
            row.content.length
          (cacheDocument key (.doc doc) st, some doc)
        else
          let doc0 := mkDocument row.id row.title "" row.createdAt row.updatedAt
            row.content.length
          let doc := { doc0 with isContentLoaded := false }
          ({ st with metaCache := dictSet docId doc st.metaCache }, some doc)

/-- _invalidate_document_cache (lines 578-586): remove document-cache keys
startswith(f"{doc_id}_") — which matches exactly the "id_True"/"id_False"
keys of that id and never a "content_id" key — and the metadata entry. -/
def invalidateDocumentCache (docId : Nat) (st : DMState) : DMState :=
  { st with
      docCache := st.docCache.filter
        (fun p => match p.1 with
          | .pair i _ => decide (i ≠ docId)
          | .content _ => true),
      metaCache := st.metaCache.filter (fun p => decide (p.1 ≠ docId)) }

/-- Python row update applied by the UPDATE statement chosen in
update_document; updated_at = CURRENT_TIMESTAMP is the clock value. -/
def applyRowUpdate (title content : Option String) (now : Nat) (docId : Nat)
    (d : DocRow) : DocRow :=
  if d.id = docId then
    match title, content with
    | some t, some c => { d with title := pyStrip t, content := c, updatedAt := now }
    | some t, none => { d with title := pyStrip t, updatedAt := now }
    | none, some c => { d with content := c, updatedAt := now }
    | none, none => d
  else d

/-- Body of update_document inside `with sqlite3.connect(...)`: the context
manager commits on normal exit and rolls back when the ValueError escapes,
so on the not-found branch the state is returned unchanged. When both
title and content are None no statement runs and cursor.rowcount stays -1,
so the rowcount == 0 check does not fire and the cache is still
invalidated. -/
def updateDocumentGo (docId : Nat) (title content : Option String) (st : DMState) :
    DMState × Option DMErr :=
  let executed := title.isSome || content.isSome
  let matched := (st.store.filter (fun d => decide (d.id = docId))).length
  if executed = true ∧ matched = 0 then
    (st, some (DMErr.notFound docId))
  else
    let st1 := { st with
      store := st.store.map (applyRowUpdate title content st.now docId),
      now := st.now + 1 }
    (invalidateDocumentCache docId st1, none)

/-- update_document (lines 236-278). -/
def updateDocument (docId : Nat) (title content : Option String) (st : DMState) :
    DMState × Option DMErr :=
  match title with
  | some t =>
    if pyStrip t = "" then (st, some DMErr.validation)
    else updateDocumentGo docId (some t) content st
  | none => updateDocumentGo docId none content st

/-- delete_document (lines 280-302), run inside `with sqlite3.connect(...)`:
the cascade DELETE on images executes first, then the DELETE on the
document row; rowcount == 0 raises ValueError, the context manager rolls
the transaction back, and the tables are left exactly as they were. -/
def deleteDocument (docId : Nat) (st : DMState) : DMState × Option DMErr :=
  let pendingImages := st.imageStore.filter (fun im => decide (im.documentId ≠ docId))
  let matched := (st.store.filter (fun d => decide (d.id = docId))).length
  let pendingDocs := st.store.filter (fun d => decide (d.id ≠ docId))
  if matched = 0 then (st, some (DMErr.notFound docId))
  else ({ st with store := pendingDocs, imageStore := pendingImages }, none)

/-- get_image (lines 329-357); the gzip compressor reaches it through
_optimize_image_data. -/
def getImage (gzipCompress : List Nat → List Nat) (imageId : Nat) (st : DMState) :
    DMState × Option (String × List Nat) :=
  match dictGet imageId st.imageCache with
  | some r => (updateAccessTime (AKey.image imageId) st, some r)
  | none =>
    match st.imageStore.find? (fun im => decide (im.id = imageId)) with
    | none => (st, none)
    | some im =>
      let optimizedData := optimizeImageData gzipCompress im.data
      let optimizedRow := (im.filename, optimizedData)
      (cacheImage imageId optimizedRow st, some optimizedRow)

/-- is_large_document (lines 513-533). -/
def isLargeDocument (docId : Nat) (st : DMState) : Bool :=
  match findRow st docId with
  | some row => decide (row.content.length > st.largeThreshold)
  | none => false

/-- _evict_lru_documents is invoked, then the entry is written under the
"content_id" key and its access time recorded: _cache_document_content
(lines 467-484). -/
def cacheDocumentContent (docId : Nat) (content : String) (st : DMState) : DMState :=
  let st1 := if st.docCache.length ≥ st.cacheMax then evictLruDocuments st else st
  let st2 := { st1 with
    docCache := dictSet (DKey.content docId) (DCVal.cachedContent content) st1.docCache }
  updateAccessTime (AKey.content docId) st2

/-- The standard (non-streaming) tail of load_document_content: SELECT
content, cache it, return it. -/
def loadContentStandard (docId : Nat) (st : DMState) : DMState × Option String :=
  match findRow st docId with
  | some row => (cacheDocumentContent docId row.content st, some row.content)
  | none => (st, none)

/-- load_document_content (lines 404-445). The streaming branch
(_load_document_streaming) performs the same select-cache-return as the
standard branch; only the branching structure differs. -/
def loadDocumentContent (docId : Nat) (useStreaming : Bool) (st : DMState) :
    DMState × Option String :=
  match dictGet (DKey.content docId) st.docCache with
  | some v => (updateAccessTime (AKey.content docId) st, some v.contentOf)
  | none =>
    if useStreaming && isLargeDocument docId st then
      match findRow st docId with
      | some row =>
        if row.content.length > st.largeThreshold * 2 then
          (cacheDocumentContent docId row.content st, some row.content)
        else loadContentStandard docId st
      | none => loadContentStandard docId st
    else loadContentStandard docId st

/-! get_all_documents (lines 192-234): rows ordered by updated_at DESC. -/

def rowGe (a b : DocRow) : Prop := b.updatedAt ≤ a.updatedAt

instance : DecidableRel rowGe := fun a b => Nat.decLe b.updatedAt a.updatedAt

instance : IsTotal DocRow rowGe := ⟨fun a b => (Nat.le_total b.updatedAt a.updatedAt)⟩

instance : IsTrans DocRow rowGe := ⟨fun _ _ _ h1 h2 => Nat.le_trans h2 h1⟩

/-- ORDER BY updated_at DESC (tie order unspecified in SQL; a stable sort
is one valid refinement). -/
def sortByUpdatedDesc (l : List DocRow) : List DocRow := List.insertionSort rowGe l

/-- get_all_documents. With load_content=true the SQL CASE defers content
larger than the threshold to '' and the Python loop then clears the loaded
flag whenever the fetched content is falsy (the empty string). With
load_content=false each row becomes a metadata-only Document, served from
and inserted into the metadata cache. -/
def getAllDocuments (loadContent : Bool) (st : DMState) : DMState × List DocumentObj :=
  if loadContent then
    (st, (sortByUpdatedDesc st.store).map (fun row =>
      let shown := if row.content.length ≤ st.largeThreshold then row.content else ""
      let doc := mkDocument row.id row.title shown row.createdAt row.updatedAt
        row.content.length
      if shown = "" then { doc with isContentLoaded := false } else doc))
  else
    (sortByUpdatedDesc st.store).foldl
      (fun acc row =>
        match dictGet row.id acc.1.metaCache with
        | some d => (acc.1, acc.2 ++ [d])
        | none =>
          let doc0 := mkDocument row.id row.title "" row.createdAt row.updatedAt
            row.content.length
          let doc := { doc0 with isContentLoaded := false }
          ({ acc.1 with metaCache := dictSet row.id doc acc.1.metaCache }, acc.2 ++ [doc]))
      (st, [])

/-! ## PreviewWidget (preview_widget.py)

The markdown converter (`markdown` library), the md5 hex digest, the theme
CSS table and the image-URL substitution are external collaborators and
enter through an environment record. `self.md.reset()` is called before
every convert, so conversion is a pure function of the block text. -/

structure RenderEnv where
  md5 : String → String
  convert : String → String
  themeCss : String → String
  replaceImages : String → String
  hasImageHandler : Bool

/-- PreviewWidget state after __init__ (lines 92-119): html cache dict with
max 200, hit/miss counters, last rendered content hash, theme 'dark',
access times, render queue, precompiled CSS dict, block cache with the
incremental threshold 5000, and the scroll-restore fields. `timerArmed`
records that _render_timer.start() was called. -/
structure PWState where
  htmlCache : List (String × String)
  cacheMaxSize : Nat
  cacheHitCount : Nat
  cacheMissCount : Nat
  lastContentHash : Option String
  currentTheme : String
  cacheAccessTimes : List (String × Nat)
  renderQueue : List String
  timerArmed : Bool
  precompiledCss : List (String × String)
  lastMarkdownContent : String
  blockCache : List (String × String)
  incrementalThreshold : Nat
  savedScrollPosition : Nat
  restoreScrollPending : Bool
  now : Nat
deriving DecidableEq

def initPWState : PWState :=
  { htmlCache := [], cacheMaxSize := 200, cacheHitCount := 0, cacheMissCount := 0,
    lastContentHash := none, currentTheme := "dark", cacheAccessTimes := [],
    renderQueue := [], timerArmed := false, precompiledCss := [],
    lastMarkdownContent := "", blockCache := [], incrementalThreshold := 5000,
    savedScrollPosition := 0, restoreScrollPending := false, now := 0 }

/-- update_content (lines 176-183): append to the render queue and
start/restart the debounce timer. -/
def updateContent (st : PWState) (markdownContent : String) : PWState :=
  { st with renderQueue := st.renderQueue ++ [markdownContent], timerArmed := true }

/-- _update_cache_access_time (lines 246-249). -/
def updateCacheAccessTime (key : String) (st : PWState) : PWState :=
  { st with cacheAccessTimes := dictSet key st.now st.cacheAccessTimes, now := st.now + 1 }

/-- _evict_lru_html (lines 667-685): with no access times delete the first
max(1, _cache_max_size // 4) keys in insertion order; otherwise delete the
oldest max(1, n // 4) access-time keys from the cache and access times. -/
def evictLruHtml (st : PWState) : PWState :=
  if st.cacheAccessTimes.isEmpty then
    let entriesToRemove := max 1 (st.cacheMaxSize / 4)
    { st with htmlCache := dropKeys ((st.htmlCache.map (·.1)).take entriesToRemove) st.htmlCache }
  else
    let sortedKeys := sortByTime st.cacheAccessTimes
    let entriesToRemove := max 1 (sortedKeys.length / 4)
    let victims := (sortedKeys.take entriesToRemove).map (·.1)
    { st with
        htmlCache := st.htmlCache.filter
          (fun p => !(victims.any (fun a => decide (a = p.1)))),
        cacheAccessTimes := st.cacheAccessTimes.filter
          (fun p => !(victims.any (fun a => decide (a = p.1)))) }

/-- _cache_html_lru (lines 658-665). -/
def cacheHtmlLru (contentHash html : String) (st : PWState) : PWState :=
  let st1 := if st.htmlCache.length ≥ st.cacheMaxSize then evictLruHtml st else st
  updateCacheAccessTime contentHash
    { st1 with htmlCache := dictSet contentHash html st1.htmlCache }

/-- _evict_block_cache (lines 313-319): delete the first quarter of the
block-cache keys in insertion order (no minimum of one here). -/
def evictBlockCache (st : PWState) : PWState :=
  let entriesToRemove := st.blockCache.length / 4
  { st with blockCache := dropKeys ((st.blockCache.map (·.1)).take entriesToRemove) st.blockCache }

/-- The block-cache insertion fragment of _incremental_parse (lines
269-274): store the parsed block, then trim if the cache passed 500. -/
def blockCachePut (blockHash blockHtml : String) (st : PWState) : PWState :=
  let st1 := { st with blockCache := dictSet blockHash blockHtml st.blockCache }
  if st1.blockCache.length > 500 then evictBlockCache st1 else st1

/-- One step of the _split_into_blocks loop (lines 284-305), with state
(blocks so far, current block lines, inside a fenced code block). -/
def splitBlocksStep (acc : List String × List String × Bool) (line : String) :
    List String × List String × Bool :=
  let (blocks, current, inCode) := acc
  if strStartsWith (pyStrip line) "```" then
    let inCode1 := !inCode
    let current1 := current ++ [line]
    if !inCode1 then (blocks ++ [joinNl current1], [], inCode1)
    else (blocks, current1, inCode1)
  else if inCode then (blocks, current ++ [line], inCode)
  else if pyStrip line = "" then
    if current ≠ [] then (blocks ++ [joinNl current], [], inCode)
    else (blocks, current, inCode)
  else (blocks, current ++ [line], inCode)

/-- _split_into_blocks applied to an already line-split input, including the
trailing flush of the final block. -/
def splitBlocksLines (lines : List String) : List String :=
  let res := lines.foldl splitBlocksStep ([], [], false)
  res.1 ++ (if res.2.1 ≠ [] then [joinNl res.2.1] else [])

/-- _split_into_blocks (lines 278-311). -/
def splitIntoBlocks (content : String) : List String :=
  splitBlocksLines (pySplitLines content)

/-- One iteration of the _incremental_parse loop (lines 257-274): hash the
block, serve its HTML from the block cache or convert and store it. -/
def incrementalParseStep (env : RenderEnv) (acc : PWState × List String)
    (block : String) : PWState × List String :=
  let blockHash := env.md5 block
  match dictGet blockHash acc.1.blockCache with
  | some h => (acc.1, acc.2 ++ [h])
  | none =>
    let blockHtml := env.convert block
    (blockCachePut blockHash blockHtml acc.1, acc.2 ++ [blockHtml])

/-- _incremental_parse (lines 251-276): parse block by block through the
block cache, then join the fragments with newlines. -/
def incrementalParse (env : RenderEnv) (content : String) (st : PWState) :
    PWState × String :=
  let res := (splitIntoBlocks content).foldl (incrementalParseStep env) (st, [])
  (res.1, joinNl res.2)

/-- _create_html_document_with_css (lines 332-441). The verbatim CSS/JS
boilerplate of the HTML template is abbreviated; what is kept is exactly
its dependence on the theme CSS, on the scroll position chosen by
`_saved_scroll_position if _restore_scroll_pending else 0` (which also
decides the initial opacity rule), and on the rendered body. No claim
inspects the template text itself. -/
def createHtmlDocumentWithCss (content themeCss : String) (st : PWState) : String :=
  let scrollPosition := if st.restoreScrollPending then st.savedScrollPosition else 0
  "<!DOCTYPE html><html><head><style>" ++ themeCss ++
    (if scrollPosition > 0 then " html \x7b opacity: 0; \x7d " else "") ++
    "</style><script>var savedPosition = " ++ toString scrollPosition ++
    ";</script></head><body>" ++ content ++ "</body></html>"

/-- _create_html_document_optimized (lines 321-330): fetch or fill the
precompiled-CSS dict for the current theme, then build the document. -/
def createHtmlDocumentOptimized (env : RenderEnv) (content : String) (st : PWState) :
    PWState × String :=
  match dictGet st.currentTheme st.precompiledCss with
  | some themeCss => (st, createHtmlDocumentWithCss content themeCss st)
  | none =>
    let themeCss := env.themeCss st.currentTheme
    ({ st with precompiledCss := dictSet st.currentTheme themeCss st.precompiledCss },
     createHtmlDocumentWithCss content themeCss st)

/-- _process_render_queue (lines 185-244). Returns the new state and the
HTML handed to web_view.setHtml, `none` when nothing is displayed. The
_save_scroll_position call only issues an asynchronous JavaScript read
whose callback assigns _saved_scroll_position later; it has no synchronous
state effect and is not a step of this function. -/
def processRenderQueue (env : RenderEnv) (st : PWState) : PWState × Option String :=
  match st.renderQueue.getLast? with
  | none => (st, none)
  | some markdownContent =>
    let st1 := { st with renderQueue := [] }
    let contentHash := env.md5 (markdownContent ++ "_" ++ st1.currentTheme)
    if st1.lastContentHash = some contentHash then (st1, none)
    else
      let st2 := { st1 with lastContentHash := some contentHash }
      match dictGet contentHash st2.htmlCache with
      | some fullHtml =>
        let st3 := updateCacheAccessTime contentHash
          { st2 with cacheHitCount := st2.cacheHitCount + 1 }
        let st4 := { st3 with
          lastMarkdownContent := markdownContent, restoreScrollPending := true }
        (st4, some fullHtml)
      | none =>
        let st3 := { st2 with cacheMissCount := st2.cacheMissCount + 1 }
        let processedContent :=
          if env.hasImageHandler then env.replaceImages markdownContent
          else markdownContent
        let parsed :=
          if processedContent.length > st3.incrementalThreshold then
            incrementalParse env processedContent st3
          else (st3, env.convert processedContent)
        let built := createHtmlDocumentOptimized env parsed.2 parsed.1
        let st4 := cacheHtmlLru contentHash built.2 built.1
        let st5 := { st4 with
          lastMarkdownContent := markdownContent, restoreScrollPending := true }
        (st5, some built.2)

/-- get_cache_stats (lines 687-700), the size/counter part. -/
def getCacheStats (st : PWState) : Nat × Nat × Nat × Nat :=
  (st.htmlCache.length, st.cacheMaxSize, st.cacheHitCount, st.cacheMissCount)

/-! ## Spec-side definition for the eviction-policy comparison -/

/-- The eviction policy as the specification words it, fallback case: with
no access-time data, remove a prefix of insertion order of the same
proportion as the LRU rule, i.e. the oldest 25 percent (minimum one). The
implementation's evictions are compared against this. -/
def specLruFallbackEvict {κ α : Type} (cache : List (κ × α)) : List (κ × α) :=
  cache.drop (max 1 (cache.length / 4))

/-! ## Concrete test codecs

The gzip library is external; the theorems about optimize/decompress are
parametric in the codec and assume only what the source relies on: the
decompressor inverts the compressor, and decompression of data that is not
a gzip stream raises (returns `none`). The concrete instances below are
used to evaluate the code at concrete inputs; each comes with a proved
round-trip lemma showing it is a legitimate codec. -/

/-- The two leading bytes 0x1f 0x8b of a real gzip member. -/
def gzHeaderBytes : List Nat := [31, 139]

/-- Test codec: tags payloads with the gzip header bytes. Like real gzip,
decompression fails (raises) on input that does not carry the header. -/
def mCompress (x : List Nat) : List Nat := gzHeaderBytes ++ x

def mDecompress (y : List Nat) : Option (List Nat) :=
  if gzHeaderBytes.isPrefixOf y then some (y.drop 2) else none

/-- A plain (never-compressed-by-optimize) byte string that nevertheless
starts with the magic marker followed by a valid compressed stream: the
shape b'GZIP_COMPRESSED:' ++ compress(b''). Real gzip admits the same
shape (b'GZIP_COMPRESSED:' + gzip.compress(b'')). -/
def c1Input : List Nat := gzipMagicMarker ++ mCompress []

/-- Test codec achieving strong compression on one designated 512000-byte
input (an all-zero buffer, which real gzip also compresses drastically). -/
def zInput : List Nat := List.replicate (500 * 1024) 0

def zCompress (x : List Nat) : List Nat := if x = zInput then [0] else 1 :: x

def zDecompress (y : List Nat) : Option (List Nat) :=
  if y = [0] then some zInput else
    match y with
    | 1 :: r => some r
    | _ => none

/-- Test codec compressing one designated 512005-byte input to exactly 80
percent of its size (409604 bytes; 5 * 409604 = 4 * 512005). -/
def wInput : List Nat := List.replicate (500 * 1024 + 5) 7

def wCompressedForm : List Nat := List.replicate 409604 0

def wCompress (x : List Nat) : List Nat := if x = wInput then wCompressedForm else 1 :: x

def wDecompress (y : List Nat) : Option (List Nat) :=
  if y = wCompressedForm then some wInput else
    match y with
    | 1 :: r => some r
    | _ => none

/-! ## Concrete states and traces used to evaluate the code -/

/-- A render environment with identity hash/convert functions (the md5 hex
digest is injective on the inputs exercised; identity is one admissible
hash) and no image handler attached. -/
def env0 : RenderEnv :=
  { md5 := id, convert := id, themeCss := fun _ => "css", replaceImages := id,
    hasImageHandler := false }

/-- First submission and debounce fire of "hello" on a fresh widget. -/
def c5Run1 : PWState × Option String :=
  processRenderQueue env0 (updateContent initPWState "hello")

/-- Second, identical submission and fire, no intervening edits. -/
def c5Run2 : PWState × Option String :=
  processRenderQueue env0 (updateContent c5Run1.1 "hello")

/-- Store with one document (id 1, content "old") behind a fresh manager. -/
def c2Init : DMState := initDMState [⟨1, "t", "old", 0, 0⟩] []

/-- After load_document_content(1) — populates the "content_1" cache entry. -/
def c2AfterLoad : DMState := (loadDocumentContent 1 true c2Init).1

/-- After update_document(1, content="new") — succeeds and invalidates. -/
def c2AfterUpdate : DMState := (updateDocument 1 none (some "new") c2AfterLoad).1

/-- Store with 101 one-character documents (ids 0..100) and one stored
image, behind a fresh manager (document cache max 100). -/
def c48Store : List DocRow :=
  (List.range 101).map (fun i => ⟨i, "t", "c", 0, 0⟩)

def c48Init : DMState := initDMState c48Store [⟨1, 1, "f", [0]⟩]

/-- get_document(i, load_content=True) for i = 0..99: fills the document
cache to its configured maximum of 100 entries; none of these insertions
records an access time. -/
def fillDocCache : DMState :=
  (List.range 100).foldl (fun s i => (getDocument i true s).1) c48Init

/-- One more get_document on the full cache: triggers the eviction inside
_cache_document. -/
def c8AfterGet : DMState := (getDocument 100 true fillDocCache).1

/-- get_image(1) (records the only access-time entry, an image key), then
load_document_content(100) on the full document cache: the eviction pass
sorts access times, finds only the image key, evicts nothing from the
document cache, and the insertion then overflows it. -/
def c4Trace : DMState :=
  (loadDocumentContent 100 true (getImage (fun l => l) 1 fillDocCache).1).1

/-- A document whose content exceeds the 50000 large-document threshold. -/
def bigContent : String := String.mk (List.replicate 50001 'a')

/-- Store with a genuinely-empty document (id 1) and an over-threshold
document (id 2). -/
def c9Init : DMState := initDMState [⟨1, "t", "", 0, 0⟩, ⟨2, "t2", bigContent, 0, 0⟩] []

/-- Store with one document and two images attached to it. -/
def c10State : DMState :=
  initDMState [⟨1, "t", "x", 0, 0⟩] [⟨1, 1, "a.png", [1]⟩, ⟨2, 1, "b.png", [2]⟩]

/-! ## Helper lemmas -/

theorem list_isPrefixOf_append_self {α : Type} [DecidableEq α] (l r : List α) :
    l.isPrefixOf (l ++ r) = true := by
  induction l with
  | nil => simp [List.isPrefixOf]
  | cons a t ih => simp [List.isPrefixOf, ih]

/-- The test codec inverts: stripping the gzip header recovers the payload. -/
theorem mCodec_roundtrip : ∀ y, mDecompress (mCompress y) = some y := by
  intro y
  simp [mDecompress, mCompress, list_isPrefixOf_append_self, gzHeaderBytes]

theorem zCodec_roundtrip : ∀ y, zDecompress (zCompress y) = some y := by
  intro y
  by_cases h : y = zInput
  · subst h
    simp [zCompress, zDecompress]
  · simp [zCompress, zDecompress, h]

theorem wCodec_roundtrip : ∀ y, wDecompress (wCompress y) = some y := by
  intro y
  by_cases h : y = wInput
  · subst h
    simp [wCompress, wDecompress]
  · have hne : (1 :: y) ≠ wCompressedForm := by
      intro heq
      have hh := congrArg List.head? heq
      have hw : wCompressedForm.head? = some 0 := rfl
      rw [hw] at hh
      simp at hh
    simp [wCompress, wDecompress, h, hne]

/-! ## C1: round-trip of decompress after optimize -/

/-- C1 (amended): for every byte string x that does not itself begin with
the 16-byte magic marker b'GZIP_COMPRESSED:',
decompress(optimize(x)) = x, for any gzip codec whose decompressor inverts
its compressor. (The unamended universal claim fails on inputs that begin
with the marker; see the counterexample.) -/
theorem c1_roundtrip (gzipCompress : List Nat → List Nat)
    (gzipDecompress : List Nat → Option (List Nat))
    (hinv : ∀ y, gzipDecompress (gzipCompress y) = some y)
    (x : List Nat) (hx : gzipMagicMarker.isPrefixOf x = false) :
    decompressImageData gzipDecompress (optimizeImageData gzipCompress x) = x := by
  by_cases h1 : x.length < 100 * 1024
  · simp [optimizeImageData, h1, decompressImageData, hx]
  · by_cases h2 : x.length > 500 * 1024
    · by_cases h3 : (gzipCompress x).length * 5 < x.length * 4
      · have hopt : optimizeImageData gzipCompress x = gzipMagicMarker ++ gzipCompress x := by
          simp [optimizeImageData, h1, h2, h3]
        rw [hopt]
        unfold decompressImageData
        rw [if_pos (list_isPrefixOf_append_self _ _)]
        have hdrop : (gzipMagicMarker ++ gzipCompress x).drop 16 = gzipCompress x := by
          rw [show (16 : Nat) = gzipMagicMarker.length from rfl, List.drop_left]
        rw [hdrop, hinv x]
      · simp [optimizeImageData, h1, h2, h3, decompressImageData, hx]
    · simp [optimizeImageData, h1, h2, decompressImageData, hx]

/-- C1 counterexample: the byte string b'GZIP_COMPRESSED:' ++ compress(b'')
is below the 100 KB floor, so optimize returns it unchanged, but decompress
then strips the marker and inflates the embedded stream to b'': the
round-trip law fails on it. -/
theorem c1_counterexample :
    decompressImageData mDecompress (optimizeImageData mCompress c1Input) = [] ∧
    c1Input ≠ [] := by decide

theorem c1_roundtrip_witness :
    gzipMagicMarker.isPrefixOf [1, 2, 3] = false ∧
    decompressImageData mDecompress (optimizeImageData mCompress [1, 2, 3]) = [1, 2, 3] :=
  ⟨by decide, c1_roundtrip mCompress mDecompress mCodec_roundtrip [1, 2, 3] (by decide)⟩

/-! ## C7: the optimize thresholds -/

/-- C7 (amended): payloads under 100 KB (102400 bytes) pass through
unchanged; payloads of at most 500 KB (512000 bytes) — including exactly
512000 — also pass through; payloads strictly above 512000 bytes are
replaced by marker ++ compressed exactly when the compressed form is
strictly more than 20 percent smaller (5*len(c) < 4*len(x)), else kept; in
particular a 600 KB buffer compressing to 400 KB is returned with the
marker and one compressing to 550 KB is returned unchanged. -/
theorem c7_theorem (gzipCompress : List Nat → List Nat) (x : List Nat) :
    (x.length < 100 * 1024 → optimizeImageData gzipCompress x = x) ∧
    (100 * 1024 ≤ x.length → x.length ≤ 500 * 1024 →
      optimizeImageData gzipCompress x = x) ∧
    (500 * 1024 < x.length → (gzipCompress x).length * 5 < x.length * 4 →
      optimizeImageData gzipCompress x = gzipMagicMarker ++ gzipCompress x) ∧
    (500 * 1024 < x.length → ¬ ((gzipCompress x).length * 5 < x.length * 4) →
      optimizeImageData gzipCompress x = x) ∧
    (x.length = 600 * 1024 → (gzipCompress x).length = 400 * 1024 →
      optimizeImageData gzipCompress x = gzipMagicMarker ++ gzipCompress x) ∧
    (x.length = 600 * 1024 → (gzipCompress x).length = 550 * 1024 →
      optimizeImageData gzipCompress x = x) := by
  refine ⟨fun h1 => ?_, fun h1 h2 => ?_, fun h1 h2 => ?_, fun h1 h2 => ?_,
    fun h1 h2 => ?_, fun h1 h2 => ?_⟩
  · simp [optimizeImageData, h1]
  · have hn1 : ¬ x.length < 100 * 1024 := by omega
    have hn2 : ¬ x.length > 500 * 1024 := by omega
    simp [optimizeImageData, hn1, hn2]
  · have hn1 : ¬ x.length < 100 * 1024 := by omega
    simp [optimizeImageData, hn1, h1, h2]
  · have hn1 : ¬ x.length < 100 * 1024 := by omega
    simp [optimizeImageData, hn1, h1, h2]
  · have hn1 : ¬ x.length < 100 * 1024 := by omega
    have hg : x.length > 500 * 1024 := by omega
    have hc : (gzipCompress x).length * 5 < x.length * 4 := by omega
    simp [optimizeImageData, hn1, hg, hc]
  · have hn1 : ¬ x.length < 100 * 1024 := by omega
    have hg : x.length > 500 * 1024 := by omega
    have hc : ¬ (gzipCompress x).length * 5 < x.length * 4 := by omega
    simp [optimizeImageData, hn1, hg, hc]

theorem c7_theorem_witness :
    ([1, 2, 3] : List Nat).length < 100 * 1024 ∧
    optimizeImageData (fun l => l) [1, 2, 3] = [1, 2, 3] :=
  ⟨by decide, (c7_theorem (fun l => l) [1, 2, 3]).1 (by decide)⟩

/-- C7 counterexample: (i) an exactly-512000-byte buffer whose compressed
form is far smaller is still returned unchanged — the code compresses only
strictly above 500*1024, not "at or above"; (ii) a buffer strictly above
500 KB whose compressed form is exactly 20 percent smaller is returned
unchanged — the code demands strictly more than 20 percent, not "at
least". -/
theorem c7_counterexample :
    (optimizeImageData zCompress zInput = zInput ∧
     zInput.length = 500 * 1024 ∧
     (zCompress zInput).length * 5 < zInput.length * 4 ∧
     zInput ≠ gzipMagicMarker ++ zCompress zInput) ∧
    (optimizeImageData wCompress wInput = wInput ∧
     500 * 1024 < wInput.length ∧
     (wCompress wInput).length * 5 = wInput.length * 4 ∧
     wInput ≠ gzipMagicMarker ++ wCompress wInput) := by
  have hzc : zCompress zInput = [0] := if_pos rfl
  have hwc : wCompress wInput = wCompressedForm := if_pos rfl
  have hzl : zInput.length = 500 * 1024 := by
    show (List.replicate (500 * 1024) (0 : Nat)).length = 500 * 1024
    rw [List.length_replicate]
  have hwl : wInput.length = 500 * 1024 + 5 := by
    show (List.replicate (500 * 1024 + 5) (7 : Nat)).length = 500 * 1024 + 5
    rw [List.length_replicate]
  have hwcl : wCompressedForm.length = 409604 := by
    show (List.replicate 409604 (0 : Nat)).length = 409604
    rw [List.length_replicate]
  refine ⟨⟨?_, hzl, ?_, ?_⟩, ⟨?_, ?_, ?_, ?_⟩⟩
  · have hn1 : ¬ zInput.length < 100 * 1024 := by omega
    have hn2 : ¬ zInput.length > 500 * 1024 := by omega
    simp [optimizeImageData, hn1, hn2]
  · rw [hzc, hzl]
    decide
  · intro h
    have := congrArg List.length h
    rw [hzl, hzc] at this
    simp [gzipMagicMarker] at this
  · have hn1 : ¬ wInput.length < 100 * 1024 := by omega
    have hg : wInput.length > 500 * 1024 := by omega
    have hc : ¬ (wCompress wInput).length * 5 < wInput.length * 4 := by
      rw [hwc, hwcl, hwl]
      omega
    unfold optimizeImageData
    rw [if_neg hn1, if_pos hg]
    show (if (wCompress wInput).length * 5 < wInput.length * 4 then
        gzipMagicMarker ++ wCompress wInput else wInput) = wInput
    rw [if_neg hc]
  · omega
  · rw [hwc, hwcl, hwl]
  · intro h
    have h2 := congrArg List.length h
    rw [List.length_append, hwl, hwc, hwcl,
      show gzipMagicMarker.length = 16 from rfl] at h2
    omega

/-! ## C10: failed delete rolls the image cascade back -/

/-- C10: delete_document on an id with no matching document row raises the
not-found error, and because the ValueError escapes the sqlite3 connection
context manager the transaction — including the already-issued cascade
DELETE on images — is rolled back: the returned state is exactly the input
state, its images table untouched. -/
theorem c10_theorem (st : DMState) (docId : Nat)
    (h : ∀ d ∈ st.store, d.id ≠ docId) :
    deleteDocument docId st = (st, some (DMErr.notFound docId)) ∧
    ((deleteDocument docId st).1).imageStore = st.imageStore := by
  have hfil : st.store.filter (fun d => decide (d.id = docId)) = [] := by
    rw [List.filter_eq_nil_iff]
    intro d hd
    simp [h d hd]
  have hdel : deleteDocument docId st = (st, some (DMErr.notFound docId)) := by
    unfold deleteDocument
    rw [hfil]
    simp
  exact ⟨hdel, by rw [hdel]⟩

theorem c10_theorem_witness :
    (∀ d ∈ c10State.store, d.id ≠ 5) ∧
    deleteDocument 5 c10State = (c10State, some (DMErr.notFound 5)) ∧
    ((deleteDocument 5 c10State).1).imageStore = c10State.imageStore :=
  ⟨by decide, (c10_theorem c10State 5 (by decide)).1, (c10_theorem c10State 5 (by decide)).2⟩

/-! ## C2: cache invalidation on update misses the content-only entry -/

/-- C2 evaluated at the failing input: document 1 holds "old";
load_document_content(1) caches it under "content_1"; update_document(1,
content="new") succeeds and runs _invalidate_document_cache, whose
startswith("1_") filter does not match "content_1"; the store now holds
"new", yet a subsequent load_document_content(1) still returns the stale
"old" from the surviving cache entry. -/
theorem c2_bug_eval :
    (loadDocumentContent 1 true c2Init).2 = some "old" ∧
    (updateDocument 1 none (some "new") c2AfterLoad).2 = none ∧
    (findRow c2AfterUpdate 1).map (fun r => r.content) = some "new" ∧
    (loadDocumentContent 1 true c2AfterUpdate).2 = some "old" := by decide

/-! ## C6: the block splitter -/

/-- Lines inside a fenced block that are not fence markers are accumulated
verbatim, blank lines included. -/
theorem splitBlocks_inCode_append (body : List String)
    (h : ∀ l ∈ body, strStartsWith (pyStrip l) "```" = false)
    (blocks current : List String) :
    body.foldl splitBlocksStep (blocks, current, true) = (blocks, current ++ body, true) := by
  induction body generalizing current with
  | nil => simp
  | cons l t ih =>
    have hl : strStartsWith (pyStrip l) "```" = false := h l (by simp)
    have ht : ∀ x ∈ t, strStartsWith (pyStrip x) "```" = false := fun x hx => h x (by simp [hx])
    have hstep : splitBlocksStep (blocks, current, true) l = (blocks, current ++ [l], true) := by
      simp [splitBlocksStep, hl]
    rw [List.foldl_cons, hstep, ih ht]
    simp

/-- C6: splitting the scenario string yields exactly the three blocks, the
fenced block kept whole with its interior blank line; and in general a
fenced block whose body lines carry no fence marker is emitted as one
single block. -/
theorem c6_theorem :
    splitIntoBlocks "para one\n\n```\ncode\nwith blank\n\nline\n```\n\npara two" =
      ["para one", "```\ncode\nwith blank\n\nline\n```", "para two"] ∧
    ∀ body : List String, (∀ l ∈ body, strStartsWith (pyStrip l) "```" = false) →
      splitBlocksLines ("```" :: (body ++ ["```"])) =
        [joinNl ("```" :: (body ++ ["```"]))] := by
  constructor
  · decide
  · intro body h
    unfold splitBlocksLines
    have h1 : splitBlocksStep ([], [], false) "```" = ([], ["```"], true) := by decide
    have h2 : ∀ cur, splitBlocksStep (([] : List String), cur, true) "```" =
        ([joinNl (cur ++ ["```"])], [], false) := by
      intro cur
      have hf : strStartsWith (pyStrip "```") "```" = true := by decide
      simp [splitBlocksStep, hf]
    rw [List.foldl_cons, h1, List.foldl_append,
      splitBlocks_inCode_append body h [] ["```"], List.foldl_cons, List.foldl_nil, h2]
    simp

theorem c6_theorem_witness :
    (∀ l ∈ ["code", ""], strStartsWith (pyStrip l) "```" = false) ∧
    splitBlocksLines ("```" :: (["code", ""] ++ ["```"])) =
      [joinNl ("```" :: (["code", ""] ++ ["```"]))] :=
  ⟨by decide, c6_theorem.2 ["code", ""] (by decide)⟩

/-! ## C3: the render queue coalesces -/

/-- None of the rendering helpers touches the render queue. -/
theorem renderQueue_updateCacheAccessTime (key : String) (st : PWState) :
    (updateCacheAccessTime key st).renderQueue = st.renderQueue := rfl

theorem renderQueue_evictLruHtml (st : PWState) :
    (evictLruHtml st).renderQueue = st.renderQueue := by
  unfold evictLruHtml
  split <;> rfl

theorem renderQueue_cacheHtmlLru (h v : String) (st : PWState) :
    (cacheHtmlLru h v st).renderQueue = st.renderQueue := by
  unfold cacheHtmlLru
  split
  · rw [renderQueue_updateCacheAccessTime]
    simp [renderQueue_evictLruHtml]
  · rw [renderQueue_updateCacheAccessTime]

theorem renderQueue_blockCachePut (h v : String) (st : PWState) :
    (blockCachePut h v st).renderQueue = st.renderQueue := by
  simp only [blockCachePut, evictBlockCache]
  split <;> rfl

theorem renderQueue_incParse_fold (env : RenderEnv) (blocks : List String) :
    ∀ acc : PWState × List String,
      ((blocks.foldl (incrementalParseStep env) acc).1).renderQueue = acc.1.renderQueue := by
  induction blocks with
  | nil => intro acc; rfl
  | cons b t ih =>
    intro acc
    rw [List.foldl_cons, ih]
    cases hdg : dictGet (env.md5 b) acc.1.blockCache with
    | none => simp [incrementalParseStep, hdg, renderQueue_blockCachePut]
    | some h => simp [incrementalParseStep, hdg]

theorem renderQueue_incrementalParse (env : RenderEnv) (c : String) (st : PWState) :
    ((incrementalParse env c st).1).renderQueue = st.renderQueue := by
  unfold incrementalParse
  rw [renderQueue_incParse_fold]

theorem renderQueue_createHtmlDocumentOptimized (env : RenderEnv) (c : String) (st : PWState) :
    ((createHtmlDocumentOptimized env c st).1).renderQueue = st.renderQueue := by
  unfold createHtmlDocumentOptimized
  cases dictGet st.currentTheme st.precompiledCss <;> rfl

/-- After a debounce fire the render queue is always empty: either it was
empty, or the fired pass drained it and no rendering helper refills it. -/
theorem processRenderQueue_queue_nil (env : RenderEnv) (st : PWState) :
    ((processRenderQueue env st).1).renderQueue = [] := by
  unfold processRenderQueue
  cases hq : st.renderQueue.getLast? with
  | none => exact List.getLast?_eq_none_iff.mp hq
  | some m =>
    simp only []
    split
    · rfl
    · split
      · rfl
      · dsimp only
        rw [renderQueue_cacheHtmlLru, renderQueue_createHtmlDocumentOptimized]
        split
        · split
          · rw [renderQueue_incrementalParse]
          · rfl
        · split
          · rw [renderQueue_incrementalParse]
          · rfl

/-- update_content only appends to the queue and arms the debounce timer. -/
theorem foldl_updateContent (ms : List String) : ∀ st : PWState, ms ≠ [] →
    ms.foldl updateContent st =
      { st with renderQueue := st.renderQueue ++ ms, timerArmed := true } := by
  induction ms with
  | nil => intro st h; exact absurd rfl h
  | cons m t ih =>
    intro st _
    cases t with
    | nil => simp [updateContent]
    | cons x xs =>
      rw [List.foldl_cons, ih (updateContent st m) (by simp)]
      simp [updateContent]

/-- C3: submitting ms ++ [m] within one debounce window leaves the queue
holding exactly those submissions in order; when the timer fires, the pass
behaves exactly as if only the final submission m had ever been queued (so
no earlier submission influences the rendered output or the state), and
the queue is drained. -/
theorem c3_theorem (env : RenderEnv) (st : PWState) (ms : List String) (m : String)
    (hq : st.renderQueue = []) :
    ((ms ++ [m]).foldl updateContent st).renderQueue = ms ++ [m] ∧
    processRenderQueue env ((ms ++ [m]).foldl updateContent st) =
      processRenderQueue env { st with renderQueue := [m], timerArmed := true } ∧
    ((processRenderQueue env ((ms ++ [m]).foldl updateContent st)).1).renderQueue = [] := by
  have hfold := foldl_updateContent (ms ++ [m]) st (by simp)
  refine ⟨by rw [hfold]; simp [hq], ?_, processRenderQueue_queue_nil env _⟩
  rw [hfold, hq]
  show processRenderQueue env { st with renderQueue := ms ++ [m], timerArmed := true } = _
  unfold processRenderQueue
  rw [show ({ st with renderQueue := ms ++ [m], timerArmed := true } : PWState).renderQueue
      = ms ++ [m] from rfl,
    show ({ st with renderQueue := [m], timerArmed := true } : PWState).renderQueue
      = [m] from rfl,
    List.getLast?_concat, show ([m] : List String).getLast? = some m from rfl]

theorem c3_theorem_witness :
    (initPWState.renderQueue = []) ∧
    ((["a"] ++ ["b"]).foldl updateContent initPWState).renderQueue = ["a"] ++ ["b"] ∧
    processRenderQueue env0 ((["a"] ++ ["b"]).foldl updateContent initPWState) =
      processRenderQueue env0 { initPWState with renderQueue := ["b"], timerArmed := true } ∧
    ((processRenderQueue env0 ((["a"] ++ ["b"]).foldl updateContent initPWState)).1).renderQueue
      = [] := by
  refine ⟨rfl, ?_⟩
  exact c3_theorem env0 initPWState ["a"] "b" rfl

/-! ## C5: repeated submission of the same (markdown, theme) -/

/-- C5 (amended): a repeated submission whose key equals the
immediately-previous render's key is an idempotent no-op — the pass drains
the queue and returns with no HTML displayed, every counter and cache
unchanged (first conjunct: the resulting state is exactly the input state
with an empty queue and armed timer). An HTML-cache hit — identical cached
HTML served and the hit counter incremented, miss counter unchanged —
occurs when the submitted key differs from the immediately-previous one
but is present in the cache (second conjunct). -/
theorem c5_theorem :
    (∀ (env : RenderEnv) (st : PWState) (m : String),
      st.lastContentHash = some (env.md5 (m ++ "_" ++ st.currentTheme)) →
      processRenderQueue env (updateContent st m) =
        ({ st with renderQueue := [], timerArmed := true }, none)) ∧
    (∀ (env : RenderEnv) (st : PWState) (m html : String),
      st.lastContentHash ≠ some (env.md5 (m ++ "_" ++ st.currentTheme)) →
      dictGet (env.md5 (m ++ "_" ++ st.currentTheme)) st.htmlCache = some html →
      (processRenderQueue env (updateContent st m)).2 = some html ∧
      ((processRenderQueue env (updateContent st m)).1).cacheHitCount = st.cacheHitCount + 1 ∧
      ((processRenderQueue env (updateContent st m)).1).cacheMissCount = st.cacheMissCount) := by
  constructor
  · intro env st m h
    unfold processRenderQueue
    rw [show (updateContent st m).renderQueue = st.renderQueue ++ [m] from rfl,
      List.getLast?_concat]
    simp only []
    split
    · rfl
    · rename_i hcond
      exact absurd h hcond
  · intro env st m html hne hdg
    unfold processRenderQueue
    rw [show (updateContent st m).renderQueue = st.renderQueue ++ [m] from rfl,
      List.getLast?_concat]
    simp only []
    split
    · rename_i hcond
      exact absurd hcond hne
    · rw [show (updateContent st m).currentTheme = st.currentTheme from rfl,
        show (updateContent st m).htmlCache = st.htmlCache from rfl, hdg]
      exact ⟨rfl, rfl, rfl⟩

theorem c5_theorem_witness :
    ({ initPWState with lastContentHash := some "hello_dark" } : PWState).lastContentHash
      = some (env0.md5 ("hello" ++ "_" ++
        ({ initPWState with lastContentHash := some "hello_dark" } : PWState).currentTheme)) ∧
    processRenderQueue env0
        (updateContent { initPWState with lastContentHash := some "hello_dark" } "hello") =
      ({ initPWState with
          lastContentHash := some "hello_dark", renderQueue := [], timerArmed := true },
        none) ∧
    (processRenderQueue env0
        (updateContent { initPWState with htmlCache := [("b_dark", "H")] } "b")).2
      = some "H" ∧
    ((processRenderQueue env0
        (updateContent { initPWState with htmlCache := [("b_dark", "H")] } "b")).1).cacheHitCount
      = ({ initPWState with htmlCache := [("b_dark", "H")] } : PWState).cacheHitCount + 1 :=
  ⟨by decide,
   c5_theorem.1 env0 { initPWState with lastContentHash := some "hello_dark" } "hello"
     (by decide),
   (c5_theorem.2 env0 { initPWState with htmlCache := [("b_dark", "H")] } "b" "H"
     (by decide) (by decide)).1,
   (c5_theorem.2 env0 { initPWState with htmlCache := [("b_dark", "H")] } "b" "H"
     (by decide) (by decide)).2.1⟩

/-- C5 counterexample: on a fresh widget, render "hello", then submit the
identical "hello" again with no intervening edits. The first fire displays
HTML; the second fire displays nothing (no cache lookup happens at all)
and the hit counter stays 0, where the claim demands a served cache hit
with the hit counter increased. -/
theorem c5_counterexample :
    c5Run1.2.isSome = true ∧ c5Run2.2 = none ∧
    (c5Run2.1).cacheHitCount = 0 ∧ (c5Run1.1).cacheHitCount = 0 := by decide

/-! ## C9: deferred content and the loaded flag in list/get -/

/-- C9 (amended): under get_all_documents(load_content=true) every stored
row yields a returned document whose content is the stored content when
its length is within the threshold and empty otherwise, and whose
content-loaded flag is true exactly when the returned content is nonempty
— i.e. the flag is false not only for over-threshold (deferred) documents
but also for a document whose stored content is genuinely the empty
string, so the flag cannot distinguish the two. get_document(id,
load_content=true) never defers: it returns the full content with the
flag true iff the content is nonempty. -/
theorem c9_theorem :
    (∀ (st : DMState) (row : DocRow), row ∈ st.store →
      ∃ d ∈ (getAllDocuments true st).2,
        d.id = row.id ∧ d.title = row.title ∧
        d.content = (if row.content.length ≤ st.largeThreshold then row.content else "") ∧
        d.isContentLoaded =
          (decide (row.content ≠ "") && decide (row.content.length ≤ st.largeThreshold))) ∧
    (∀ (st : DMState) (docId : Nat) (row : DocRow),
      dictGet (DKey.pair docId true) st.docCache = none →
      findRow st docId = some row →
      ((getDocument docId true st).2.map (fun d => d.content)) = some row.content ∧
      ((getDocument docId true st).2.map (fun d => d.isContentLoaded))
        = some (decide (row.content ≠ ""))) := by
  constructor
  · intro st row hrow
    unfold getAllDocuments
    simp only [if_pos rfl]
    refine ⟨_, List.mem_map_of_mem _
      ((List.perm_insertionSort rowGe st.store).mem_iff.mpr hrow), ?_⟩
    by_cases h1 : row.content.length ≤ st.largeThreshold
    · by_cases h2 : row.content = ""
      · simp [mkDocument, h1, h2]
      · simp [mkDocument, h1, h2]
    · simp [mkDocument, h1]
  · intro st docId row hmiss hrow
    simp only [getDocument, hmiss, hrow]
    simp [mkDocument]

theorem c9_theorem_witness :
    ((⟨1, "t", "", 0, 0⟩ : DocRow) ∈ c9Init.store) ∧
    (∃ d ∈ (getAllDocuments true c9Init).2,
      d.id = 1 ∧ d.title = "t" ∧
      d.content = (if ("" : String).length ≤ c9Init.largeThreshold then "" else "") ∧
      d.isContentLoaded =
        (decide (("" : String) ≠ "") && decide (("" : String).length ≤ c9Init.largeThreshold))) := by
  refine ⟨by decide, ?_⟩
  exact c9_theorem.1 c9Init ⟨1, "t", "", 0, 0⟩ (by decide)

/-- C9 counterexample: a store holding a genuinely-empty document (id 1)
and an over-threshold document (id 2). The list call returns the empty
document with its content-loaded flag FALSE, although the claim says a
genuinely-empty document carries flag true; and get_document(2, true)
returns the over-threshold document with full content and flag true,
although the claim says exactly the over-threshold documents come back
with empty content and a false flag. -/
theorem c9_counterexample :
    ((getAllDocuments true c9Init).2.map (fun d => (d.id, d.isContentLoaded)))
      = [(1, false), (2, false)] ∧
    c9Init.store.map (fun r => r.content) = ["", bigContent] ∧
    c9Init.largeThreshold = 50000 ∧
    bigContent.length = 50001 ∧
    ((getDocument 2 true c9Init).2.map (fun d => d.content)) = some bigContent ∧
    ((getDocument 2 true c9Init).2.map (fun d => d.isContentLoaded)) = some true := by
  have hbl : bigContent.length = 50001 := by
    show (List.replicate 50001 'a').length = 50001
    rw [List.length_replicate]
  refine ⟨?_, rfl, rfl, hbl, rfl, rfl⟩
  simp [getAllDocuments, sortByUpdatedDesc, List.insertionSort, List.orderedInsert,
    rowGe, c9Init, initDMState, mkDocument, hbl]

/-! ## Dictionary counting lemmas for the cache bounds -/

theorem length_filter_lt {α : Type} (p : α → Bool) (l : List α) (x : α)
    (hx : x ∈ l) (hpx : p x = false) : (l.filter p).length < l.length := by
  induction l with
  | nil => cases hx
  | cons a t ih =>
    rcases List.mem_cons.mp hx with rfl | hxt
    · rw [List.filter_cons, hpx]
      exact Nat.lt_succ_of_le (List.length_filter_le p t)
    · rw [List.filter_cons]
      cases hpa : p a
      · exact Nat.lt_succ_of_lt (ih hxt)
      · simpa using Nat.succ_lt_succ (ih hxt)

theorem length_dictSet_le {κ α : Type} [DecidableEq κ] (k : κ) (v : α) (l : List (κ × α)) :
    (dictSet k v l).length ≤ l.length + 1 := by
  unfold dictSet
  split
  · simp
  · simp

theorem length_dictSet_fresh {κ α : Type} [DecidableEq κ] (k : κ) (v : α) (l : List (κ × α))
    (h : l.any (fun p => decide (p.1 = k)) = false) :
    (dictSet k v l).length = l.length + 1 := by
  simp [dictSet, h]

theorem dictGet_none_iff {κ α : Type} [DecidableEq κ] (k : κ) (l : List (κ × α)) :
    dictGet k l = none ↔ ∀ p ∈ l, p.1 ≠ k := by
  simp [dictGet, Option.map_eq_none', List.find?_eq_none]

theorem any_eq_false_of_dictGet_none {κ α : Type} [DecidableEq κ] (k : κ) (l : List (κ × α))
    (h : dictGet k l = none) : l.any (fun p => decide (p.1 = k)) = false := by
  rw [List.any_eq_false]
  intro p hp
  simpa using (dictGet_none_iff k l).mp h p hp

theorem length_dropKeys_le {κ α : Type} [DecidableEq κ] (ks : List κ) :
    ∀ l : List (κ × α), (dropKeys ks l).length ≤ l.length := by
  induction ks with
  | nil => intro l; exact Nat.le_refl _
  | cons k t ih =>
    intro l
    calc (dropKeys (k :: t) l).length = (dropKeys t (dictDel k l)).length := rfl
      _ ≤ (dictDel k l).length := ih _
      _ ≤ l.length := List.length_filter_le _ _

/-- Deleting the first max(1, _) insertion-order keys from a nonempty dict
strictly shrinks it. -/
theorem length_dropKeys_take_lt {κ α : Type} [DecidableEq κ] (c : List (κ × α)) (n : Nat)
    (hn : 1 ≤ n) (hc : c ≠ []) :
    (dropKeys ((c.map Prod.fst).take n) c).length < c.length := by
  cases c with
  | nil => exact absurd rfl hc
  | cons q rest =>
    obtain ⟨m, rfl⟩ : ∃ m, n = m + 1 := ⟨n - 1, by omega⟩
    have htake : ((q :: rest).map Prod.fst).take (m + 1)
        = q.1 :: ((rest.map Prod.fst).take m) := by simp
    rw [htake]
    calc (dropKeys (q.1 :: (rest.map Prod.fst).take m) (q :: rest)).length
        = (dropKeys ((rest.map Prod.fst).take m) (dictDel q.1 (q :: rest))).length := rfl
      _ ≤ (dictDel q.1 (q :: rest)).length := length_dropKeys_le _ _
      _ < (q :: rest).length := by
          exact length_filter_lt _ _ q (List.mem_cons_self _ _) (by simp)

theorem foldl_evictImageStep_le (victims : List AKey) :
    ∀ st : DMState, ((victims.foldl evictImageStep st).imageCache).length
      ≤ st.imageCache.length := by
  induction victims with
  | nil => intro st; exact Nat.le_refl _
  | cons a t ih =>
    intro st
    calc ((List.foldl evictImageStep (evictImageStep st a) t).imageCache).length
        ≤ (evictImageStep st a).imageCache.length := ih _
      _ ≤ st.imageCache.length := by
          cases a with
          | image i => exact List.length_filter_le _ _
          | content i => exact Nat.le_refl _

/-- Any capacity-triggered _evict_lru_html pass on a nonempty cache removes
at least one HTML entry, provided every access-time key is backed by a
cache entry (which insertion and eviction maintain). -/
theorem evictLruHtml_shrinks (st : PWState) (hne : st.htmlCache ≠ [])
    (hInv : ∀ p ∈ st.cacheAccessTimes, ∃ q ∈ st.htmlCache, q.1 = p.1) :
    (evictLruHtml st).htmlCache.length < st.htmlCache.length := by
  simp only [evictLruHtml]
  by_cases hacc : st.cacheAccessTimes.isEmpty = true
  · rw [if_pos hacc]
    exact length_dropKeys_take_lt _ _ (Nat.le_max_left 1 _) hne
  · rw [if_neg hacc]
    have haccne : st.cacheAccessTimes ≠ [] := fun h => hacc (by simp [h])
    have hperm : (sortByTime st.cacheAccessTimes).Perm st.cacheAccessTimes :=
      List.perm_insertionSort _ _
    have hsne : sortByTime st.cacheAccessTimes ≠ [] := by
      intro h
      have hl := hperm.length_eq
      rw [h] at hl
      exact haccne (List.length_eq_zero.mp hl.symm)
    obtain ⟨e, tail, hE⟩ := List.exists_cons_of_ne_nil hsne
    obtain ⟨m, hm⟩ : ∃ m, max 1 ((sortByTime st.cacheAccessTimes).length / 4) = m + 1 :=
      ⟨max 1 ((sortByTime st.cacheAccessTimes).length / 4) - 1, by omega⟩
    have heacc : e ∈ st.cacheAccessTimes :=
      hperm.mem_iff.mp (by rw [hE]; exact List.mem_cons_self _ _)
    obtain ⟨q, hq, hq1⟩ := hInv e heacc
    refine length_filter_lt _ _ q hq ?_
    have hmem : e.1 ∈ ((sortByTime st.cacheAccessTimes).take
        (max 1 ((sortByTime st.cacheAccessTimes).length / 4))).map (·.1) := by
      apply List.mem_map_of_mem
      rw [hm, hE, List.take_succ_cons]
      exact List.mem_cons_self _ _
    have hany : (((sortByTime st.cacheAccessTimes).take
        (max 1 ((sortByTime st.cacheAccessTimes).length / 4))).map (·.1)).any
        (fun a => decide (a = q.1)) = true :=
      List.any_eq_true.mpr ⟨e.1, hmem, by simp [hq1]⟩
    rw [hany]
    rfl

/-- The analogue for _evict_lru_images: with image entries cached, a
capacity-triggered pass removes at least one. -/
theorem evictLruImages_shrinks (st : DMState) (hne : st.imageCache ≠ [])
    (hInv : ∀ i t, (AKey.image i, t) ∈ st.accessTimes → ∃ q ∈ st.imageCache, q.1 = i) :
    (evictLruImages st).imageCache.length < st.imageCache.length := by
  simp only [evictLruImages]
  by_cases hacc : (st.accessTimes.filter (fun p => p.1.isImage)).isEmpty = true
  · rw [if_pos hacc]
    obtain ⟨q, rest, hQ⟩ := List.exists_cons_of_ne_nil hne
    obtain ⟨i0, r0⟩ := q
    rw [hQ]
    simp only []
    rw [← hQ]
    exact length_filter_lt _ _ (i0, r0) (by rw [hQ]; exact List.mem_cons_self _ _) (by simp)
  · rw [if_neg hacc]
    have haccne : st.accessTimes.filter (fun p => p.1.isImage) ≠ [] :=
      fun h => hacc (by simp [h])
    have hperm : (sortByTime (st.accessTimes.filter (fun p => p.1.isImage))).Perm
        (st.accessTimes.filter (fun p => p.1.isImage)) := List.perm_insertionSort _ _
    have hsne : sortByTime (st.accessTimes.filter (fun p => p.1.isImage)) ≠ [] := by
      intro h
      have hl := hperm.length_eq
      rw [h] at hl
      exact haccne (List.length_eq_zero.mp hl.symm)
    obtain ⟨e, tail, hE⟩ := List.exists_cons_of_ne_nil hsne
    obtain ⟨m, hm⟩ : ∃ m, max 1 ((sortByTime
        (st.accessTimes.filter (fun p => p.1.isImage))).length / 4) = m + 1 :=
      ⟨max 1 ((sortByTime (st.accessTimes.filter (fun p => p.1.isImage))).length / 4) - 1,
        by omega⟩
    have hefil : e ∈ st.accessTimes.filter (fun p => p.1.isImage) :=
      hperm.mem_iff.mp (by rw [hE]; exact List.mem_cons_self _ _)
    have heacc : e ∈ st.accessTimes := List.mem_of_mem_filter hefil
    have heim : e.1.isImage = true := by
      have := List.of_mem_filter hefil
      simpa using this
    obtain ⟨i, hi⟩ : ∃ i, e.1 = AKey.image i := by
      cases he1 : e.1 with
      | image i => exact ⟨i, rfl⟩
      | content i => rw [he1] at heim; simp [AKey.isImage] at heim
    obtain ⟨q, hq, hq1⟩ := hInv i e.2 (by rw [← hi]; exact heacc)
    rw [hm, hE, List.take_succ_cons]
    simp only [List.map_cons, List.foldl_cons]
    calc ((List.foldl evictImageStep (evictImageStep st e.1) ((tail.take m).map (·.1))).imageCache).length
        ≤ (evictImageStep st e.1).imageCache.length := foldl_evictImageStep_le _ _
      _ < st.imageCache.length := by
          rw [hi]
          exact length_filter_lt _ _ q hq (by simp [hq1])

/-! ## C4: cache size bounds after insertion -/

/-- C4 (amended): after an insertion each bounded cache respects its
configured maximum, under the bookkeeping each insertion path maintains:
(1) _cache_document, from any within-bound state; (2) _cache_image, given
that every image-tagged access-time record is backed by a cached image;
(3) _cache_html_lru, given that every HTML access-time record is backed by
a cached entry; (4) the block-cache insertion inside _incremental_parse
with its post-insertion trim at 500. (5) The metadata cache, by contrast,
has no configured maximum and never evicts: a miss insertion always grows
it by one, whatever its size - and the _cache_document_content path can
push the document cache over its maximum (see the counterexample), so the
claim does not hold of every insertion into every cache. -/
theorem c4_theorem :
    (∀ (st : DMState) (k : DKey) (v : DCVal),
      st.docCache.length ≤ st.cacheMax → 1 ≤ st.cacheMax →
      (cacheDocument k v st).docCache.length ≤ st.cacheMax) ∧
    (∀ (st : DMState) (imageId : Nat) (r : String × List Nat),
      st.imageCache.length ≤ st.imageCacheMax → 1 ≤ st.imageCacheMax →
      (∀ i t, (AKey.image i, t) ∈ st.accessTimes → ∃ q ∈ st.imageCache, q.1 = i) →
      (cacheImage imageId r st).imageCache.length ≤ st.imageCacheMax) ∧
    (∀ (st : PWState) (h v : String),
      st.htmlCache.length ≤ st.cacheMaxSize → 1 ≤ st.cacheMaxSize →
      (∀ p ∈ st.cacheAccessTimes, ∃ q ∈ st.htmlCache, q.1 = p.1) →
      (cacheHtmlLru h v st).htmlCache.length ≤ st.cacheMaxSize) ∧
    (∀ (st : PWState) (bh bv : String),
      st.blockCache.length ≤ 500 →
      (blockCachePut bh bv st).blockCache.length ≤ 500) ∧
    (∀ (st : DMState) (docId : Nat) (row : DocRow),
      dictGet (DKey.pair docId false) st.docCache = none →
      dictGet docId st.metaCache = none →
      findRow st docId = some row →
      ((getDocument docId false st).1).metaCache.length = st.metaCache.length + 1) := by
  refine ⟨?_, ?_, ?_, ?_, ?_⟩
  · intro st k v hlen hmax
    by_cases hfull : st.docCache.length ≥ st.cacheMax
    · cases hC : st.docCache with
      | nil =>
        rw [hC] at hfull
        simp at hfull
        omega
      | cons p rest =>
        obtain ⟨k0, v0⟩ := p
        rw [hC] at hfull hlen
        have hcd : (cacheDocument k v st).docCache
            = dictSet k v (dictDel k0 ((k0, v0) :: rest)) := by
          simp only [cacheDocument, hC, if_pos hfull]
        have hdrop : (dictDel k0 ((k0, v0) :: rest)).length < ((k0, v0) :: rest).length :=
          length_filter_lt _ _ (k0, v0) (List.mem_cons_self _ _) (by simp)
        have hset := length_dictSet_le k v (dictDel k0 ((k0, v0) :: rest))
        rw [hcd]
        omega
    · have hnf : ¬ st.docCache.length ≥ st.cacheMax := hfull
      have hcd : (cacheDocument k v st).docCache = dictSet k v st.docCache := by
        simp only [cacheDocument, if_neg hnf]
      have hset := length_dictSet_le k v st.docCache
      rw [hcd]
      omega
  · intro st imageId r hlen hmax hInv
    have hres : (cacheImage imageId r st).imageCache = dictSet imageId r
        (if st.imageCache.length ≥ st.imageCacheMax then evictLruImages st else st).imageCache := by
      simp only [cacheImage, updateAccessTime]
    by_cases hfull : st.imageCache.length ≥ st.imageCacheMax
    · have hne : st.imageCache ≠ [] := by
        intro h
        rw [h] at hfull
        simp at hfull
        omega
      have hev := evictLruImages_shrinks st hne hInv
      have hset := length_dictSet_le imageId r (evictLruImages st).imageCache
      rw [hres, if_pos hfull] at *
      omega
    · have hset := length_dictSet_le imageId r st.imageCache
      rw [hres, if_neg hfull]
      omega
  · intro st h v hlen hmax hInv
    have hres : (cacheHtmlLru h v st).htmlCache = dictSet h v
        (if st.htmlCache.length ≥ st.cacheMaxSize then evictLruHtml st else st).htmlCache := by
      simp only [cacheHtmlLru, updateCacheAccessTime]
    by_cases hfull : st.htmlCache.length ≥ st.cacheMaxSize
    · have hne : st.htmlCache ≠ [] := by
        intro hx
        rw [hx] at hfull
        simp at hfull
        omega
      have hev := evictLruHtml_shrinks st hne hInv
      have hset := length_dictSet_le h v (evictLruHtml st).htmlCache
      rw [hres, if_pos hfull] at *
      omega
    · have hset := length_dictSet_le h v st.htmlCache
      rw [hres, if_neg hfull]
      omega
  · intro st bh bv hlen
    have hset := length_dictSet_le bh bv st.blockCache
    by_cases hgt : (dictSet bh bv st.blockCache).length > 500
    · have h501 : (dictSet bh bv st.blockCache).length = 501 := by omega
      have hne : dictSet bh bv st.blockCache ≠ [] := by
        intro h
        rw [h] at h501
        simp at h501
      have hshrink := length_dropKeys_take_lt (dictSet bh bv st.blockCache)
        ((dictSet bh bv st.blockCache).length / 4) (by omega) hne
      have hres : (blockCachePut bh bv st).blockCache
          = dropKeys (((dictSet bh bv st.blockCache).map Prod.fst).take
              ((dictSet bh bv st.blockCache).length / 4)) (dictSet bh bv st.blockCache) := by
        simp only [blockCachePut, evictBlockCache, if_pos hgt]
      rw [hres]
      omega
    · have hres : (blockCachePut bh bv st).blockCache = dictSet bh bv st.blockCache := by
        simp only [blockCachePut, evictBlockCache, if_neg hgt]
      rw [hres]
      omega
  · intro st docId row hdc hmc hrow
    have hany := any_eq_false_of_dictGet_none docId st.metaCache hmc
    simp [getDocument, hdc, hrow, hmc, length_dictSet_fresh, hany]

theorem c4_theorem_witness :
    (c2Init.docCache.length ≤ c2Init.cacheMax ∧ 1 ≤ c2Init.cacheMax ∧
      (cacheDocument (DKey.pair 1 true) (DCVal.cachedContent "x") c2Init).docCache.length
        ≤ c2Init.cacheMax) ∧
    (cacheImage 1 ("f", [0]) c2Init).imageCache.length ≤ c2Init.imageCacheMax ∧
    (cacheHtmlLru "h" "v" initPWState).htmlCache.length ≤ initPWState.cacheMaxSize ∧
    (blockCachePut "bh" "bv" initPWState).blockCache.length ≤ 500 ∧
    ((getDocument 1 false c2Init).1).metaCache.length = c2Init.metaCache.length + 1 := by
  refine ⟨⟨by decide, by decide, ?_⟩, ?_, ?_, ?_, ?_⟩
  · exact c4_theorem.1 c2Init _ _ (by decide) (by decide)
  · exact c4_theorem.2.1 c2Init 1 ("f", [0]) (by decide) (by decide)
      (by intro i t h; simp [c2Init, initDMState] at h)
  · exact c4_theorem.2.2.1 initPWState "h" "v" (by decide) (by decide)
      (by intro p h; simp [initPWState] at h)
  · exact c4_theorem.2.2.2.1 initPWState "bh" "bv" (by decide)
  · exact c4_theorem.2.2.2.2 c2Init 1 ⟨1, "t", "old", 0, 0⟩ (by decide) (by decide) (by decide)

set_option maxRecDepth 40000 in
/-- C4 counterexample: a reachable trace on which an insertion leaves the
document cache with 101 entries against its configured maximum of 100.
Fill the cache with 100 get_document calls (none records an access time),
cache one image (the only access-time record, an image key), then
load_document_content on one more document: _cache_document_content calls
_evict_lru_documents, which sorts the access times, takes the single
oldest entry — the image key, which matches nothing in the document cache
— deletes nothing from it, and the subsequent insertion overflows the
bound. -/
theorem c4_counterexample :
    c4Trace.docCache.length = 101 ∧ c4Trace.cacheMax = 100 ∧ ¬ (101 ≤ 100) :=
  ⟨by decide, by decide, by decide⟩

/-! ## Association-list lemmas for the eviction-policy analysis -/

theorem dictDel_cons_self {κ α : Type} [DecidableEq κ] (k0 : κ) (v0 : α)
    (rest : List (κ × α)) (hk : ∀ p ∈ rest, p.1 ≠ k0) :
    dictDel k0 ((k0, v0) :: rest) = rest := by
  unfold dictDel
  rw [List.filter_cons]
  have h1 : (decide ((k0, v0).1 ≠ k0)) = false := by simp
  rw [h1]
  simp only [Bool.false_eq_true, if_false]
  exact List.filter_eq_self.mpr (fun p hp => by simpa using hk p hp)

theorem dropKeys_take_eq_drop {κ α : Type} [DecidableEq κ] :
    ∀ (l : List (κ × α)) (n : Nat), (l.map Prod.fst).Nodup →
      dropKeys ((l.map Prod.fst).take n) l = l.drop n := by
  intro l
  induction l with
  | nil => intro n _; simp [dropKeys]
  | cons p rest ih =>
    intro n hnd
    cases n with
    | zero => simp [dropKeys]
    | succ m =>
      obtain ⟨k0, v0⟩ := p
      have hmem : k0 ∉ rest.map Prod.fst := (List.nodup_cons.mp (by simpa using hnd)).1
      have hnd2 : (rest.map Prod.fst).Nodup := (List.nodup_cons.mp (by simpa using hnd)).2
      have hdel : dictDel k0 ((k0, v0) :: rest) = rest :=
        dictDel_cons_self k0 v0 rest
          (fun q hq he => hmem (he ▸ List.mem_map_of_mem Prod.fst hq))
      simp only [List.map_cons, List.take_succ_cons, List.drop_succ_cons]
      calc dropKeys (k0 :: (rest.map Prod.fst).take m) ((k0, v0) :: rest)
          = dropKeys ((rest.map Prod.fst).take m) (dictDel k0 ((k0, v0) :: rest)) := rfl
        _ = dropKeys ((rest.map Prod.fst).take m) rest := by rw [hdel]
        _ = rest.drop m := ih m hnd2

theorem dictGet_some_mem {κ α : Type} [DecidableEq κ] {k : κ} {v : α} {l : List (κ × α)}
    (h : dictGet k l = some v) : (k, v) ∈ l := by
  unfold dictGet at h
  cases hf : l.find? (fun p => decide (p.1 = k)) with
  | none => rw [hf] at h; cases h
  | some p =>
    rw [hf] at h
    have hp := List.find?_some hf
    have hm := List.mem_of_find?_eq_some hf
    obtain ⟨p1, p2⟩ := p
    simp at h hp
    rw [← hp, ← h]
    exact hm

theorem dictGet_eq_some_of_mem_nodup {κ α : Type} [DecidableEq κ] :
    ∀ {l : List (κ × α)}, (l.map Prod.fst).Nodup →
      ∀ {k : κ} {v : α}, (k, v) ∈ l → dictGet k l = some v := by
  intro l
  induction l with
  | nil => intro _ k v hm; cases hm
  | cons p rest ih =>
    intro hnd k v hm
    rcases List.mem_cons.mp hm with rfl | hmr
    · unfold dictGet
      rw [List.find?_cons_of_pos _ (by simp)]
      rfl
    · have hk : ¬ p.1 = k := by
        intro he
        have h2 : p.1 ∉ rest.map Prod.fst := (List.nodup_cons.mp (by simpa using hnd)).1
        exact h2 (he ▸ List.mem_map_of_mem Prod.fst hmr)
      have hnd2 : (rest.map Prod.fst).Nodup := (List.nodup_cons.mp (by simpa using hnd)).2
      have hrec := ih hnd2 hmr
      unfold dictGet at hrec ⊢
      rw [List.find?_cons_of_neg _ (by simpa using hk)]
      exact hrec

theorem dictGet_filter_of_mem_nodup {κ α : Type} [DecidableEq κ] (pred : κ × α → Bool) :
    ∀ {l : List (κ × α)}, (l.map Prod.fst).Nodup →
      ∀ {k : κ} {v : α}, (k, v) ∈ l →
        dictGet k (l.filter pred) = if pred (k, v) = true then some v else none := by
  intro l
  induction l with
  | nil => intro _ k v hm; cases hm
  | cons p rest ih =>
    intro hnd k v hm
    have hknotin : ∀ q ∈ rest, q.1 ≠ p.1 := by
      intro q hq he
      exact (List.nodup_cons.mp (by simpa using hnd)).1 (he ▸ List.mem_map_of_mem Prod.fst hq)
    have hnd2 : (rest.map Prod.fst).Nodup := (List.nodup_cons.mp (by simpa using hnd)).2
    rcases List.mem_cons.mp hm with rfl | hmr
    · rw [List.filter_cons]
      cases hp : pred (k, v)
      · simp only [Bool.false_eq_true, if_false]
        rw [(dictGet_none_iff k (rest.filter pred)).mpr
          (fun q hq => hknotin q (List.mem_of_mem_filter hq))]
      · simp only [if_true]
        unfold dictGet
        rw [List.find?_cons_of_pos _ (by simp)]
        rfl
    · have hk : ¬ p.1 = k := by
        intro he
        have h2 : p.1 ∉ rest.map Prod.fst := (List.nodup_cons.mp (by simpa using hnd)).1
        exact h2 (he ▸ List.mem_map_of_mem Prod.fst hmr)
      have hrec := ih hnd2 hmr
      rw [List.filter_cons]
      cases hp : pred p
      · simp only [Bool.false_eq_true, if_false]
        exact hrec
      · simp only [if_true]
        unfold dictGet at hrec ⊢
        rw [List.find?_cons_of_neg _ (by simpa using hk)]
        exact hrec

/-! ## C8: what the evictions actually remove -/

theorem evictLruDocuments_accessTimes_eq (st : DMState) (hne : st.accessTimes ≠ []) :
    (evictLruDocuments st).accessTimes = st.accessTimes.filter
      (fun p => !((((sortByTime st.accessTimes).take
        (max 1 ((sortByTime st.accessTimes).length / 4))).map (·.1)).any
          (fun a => decide (a = p.1)))) := by
  simp only [evictLruDocuments]
  rw [if_neg (fun h => hne (by simpa using h))]

/-- Deleting a take-n-of-insertion-order key set from a duplicate-free
association list leaves exactly the drop-n suffix. -/
theorem filter_keys_take_eq_drop {κ α : Type} [DecidableEq κ] (s : List (κ × α)) (n : Nat)
    (hnd : (s.map Prod.fst).Nodup) :
    s.filter (fun p => !(((s.take n).map (·.1)).any (fun a => decide (a = p.1)))) = s.drop n := by
  have hsplit := List.take_append_drop n s
  have hndSplit : ((s.take n).map Prod.fst ++ (s.drop n).map Prod.fst).Nodup := by
    rw [← List.map_append, hsplit]
    exact hnd
  have hdisj := (List.nodup_append.mp hndSplit).2.2
  have h1 : List.filter
      (fun p : κ × α => !(((s.take n).map (·.1)).any (fun a => decide (a = p.1))))
      (s.take n) = [] := by
    rw [List.filter_eq_nil_iff]
    intro q hq
    show ¬ (!(((s.take n).map (·.1)).any (fun a => decide (a = q.1)))) = true
    rw [List.any_eq_true.mpr ⟨q.1, List.mem_map_of_mem _ hq, by simp⟩]
    decide
  have h2 : List.filter
      (fun p : κ × α => !(((s.take n).map (·.1)).any (fun a => decide (a = p.1))))
      (s.drop n) = s.drop n := by
    rw [List.filter_eq_self]
    intro q hq
    show (!(((s.take n).map (·.1)).any (fun a => decide (a = q.1)))) = true
    have hany : (((s.take n).map (·.1)).any (fun a => decide (a = q.1))) = false := by
      rw [List.any_eq_false]
      intro a ha
      simp only [decide_eq_true_eq]
      intro he
      obtain ⟨e, he', he1⟩ := List.mem_map.mp ha
      exact hdisj ((he1.trans he) ▸ List.mem_map_of_mem Prod.fst he')
        (List.mem_map_of_mem Prod.fst hq)
    rw [hany]
    decide
  conv_lhs => arg 2; rw [← hsplit]
  rw [List.filter_append, h1, h2, List.nil_append]

/-- The access-time entries surviving an _evict_lru_documents pass are, up
to permutation, exactly the sorted list with its oldest max(1, n/4) prefix
removed. -/
theorem evictLruDocuments_surviving_perm (acc : List (AKey × Nat))
    (hnd : (acc.map Prod.fst).Nodup) :
    (acc.filter (fun p => !((((sortByTime acc).take
        (max 1 ((sortByTime acc).length / 4))).map (·.1)).any
          (fun a => decide (a = p.1))))).Perm
      ((sortByTime acc).drop (max 1 ((sortByTime acc).length / 4))) := by
  have hperm : (sortByTime acc).Perm acc := List.perm_insertionSort _ _
  have hndS : ((sortByTime acc).map Prod.fst).Nodup := ((hperm.map Prod.fst).nodup_iff).mpr hnd
  have hpermF := hperm.filter (fun p : AKey × Nat =>
    !((((sortByTime acc).take (max 1 ((sortByTime acc).length / 4))).map (·.1)).any
      (fun a => decide (a = p.1))))
  rw [filter_keys_take_eq_drop (sortByTime acc)
    (max 1 ((sortByTime acc).length / 4)) hndS] at hpermF
  exact hpermF.symm

/-- C8 (amended): the capacity eviction inside _cache_document removes
exactly the single first-inserted entry, irrespective of access times (1).
_evict_lru_documents with no access-time data deletes the first
max(1, _cache_max_size/4) document-cache entries in insertion order (2).
With access-time data it sorts ALL access-time entries (image keys
included) ascending and deletes the oldest max(1, n/4) of them: exactly
that many access records disappear, and survival is upward closed in
recency — if an entry survives, so does every strictly more recent one
(3). _evict_lru_images with no image-tagged access records deletes exactly
the single first-inserted image (4). So only _evict_lru_documents /
_evict_lru_images follow the sorted-oldest-25%% policy; the get-path
eviction of _cache_document does not. -/
theorem c8_theorem :
    (∀ (st : DMState) (k : DKey) (v : DCVal) (k0 : DKey) (v0 : DCVal)
        (rest : List (DKey × DCVal)),
      st.docCache = (k0, v0) :: rest →
      st.cacheMax ≤ st.docCache.length →
      (st.docCache.map Prod.fst).Nodup →
      (∀ p ∈ st.docCache, p.1 ≠ k) →
      (cacheDocument k v st).docCache = rest ++ [(k, v)]) ∧
    (∀ st : DMState, st.accessTimes = [] → (st.docCache.map Prod.fst).Nodup →
      (evictLruDocuments st).docCache = st.docCache.drop (max 1 (st.cacheMax / 4))) ∧
    (∀ st : DMState, st.accessTimes ≠ [] → (st.accessTimes.map Prod.fst).Nodup →
      ((evictLruDocuments st).accessTimes.length + max 1 (st.accessTimes.length / 4)
        = st.accessTimes.length) ∧
      (∀ (a b : AKey) (ta tb : Nat),
        dictGet a st.accessTimes = some ta → dictGet b st.accessTimes = some tb →
        ta < tb →
        dictGet a (evictLruDocuments st).accessTimes ≠ none →
        dictGet b (evictLruDocuments st).accessTimes ≠ none)) ∧
    (∀ (st : DMState) (i0 : Nat) (r0 : String × List Nat)
        (restI : List (Nat × (String × List Nat))),
      st.accessTimes.filter (fun p => p.1.isImage) = [] →
      st.imageCache = (i0, r0) :: restI →
      (st.imageCache.map Prod.fst).Nodup →
      (evictLruImages st).imageCache = restI) := by
  refine ⟨?_, ?_, ?_, ?_⟩
  · intro st k v k0 v0 rest hC hfull hnd hk
    have hknotin : ∀ p ∈ rest, p.1 ≠ k0 := by
      intro p hp he
      have h2 : (k0 :: rest.map Prod.fst).Nodup := by
        rw [hC] at hnd
        simpa using hnd
      exact (List.nodup_cons.mp h2).1 (he ▸ List.mem_map_of_mem Prod.fst hp)
    have hfull2 : st.cacheMax ≤ ((k0, v0) :: rest).length := by rw [← hC]; exact hfull
    have hcd : (cacheDocument k v st).docCache
        = dictSet k v (dictDel k0 ((k0, v0) :: rest)) := by
      simp only [cacheDocument, hC, if_pos hfull2]
    have hany : rest.any (fun p => decide (p.1 = k)) = false := by
      rw [List.any_eq_false]
      intro p hp
      simpa using hk p (by rw [hC]; exact List.mem_cons_of_mem _ hp)
    rw [hcd, dictDel_cons_self k0 v0 rest hknotin]
    simp [dictSet, hany]
  · intro st h hnd
    have hempty : st.accessTimes.isEmpty = true := by rw [h]; rfl
    simp only [evictLruDocuments, if_pos hempty]
    exact dropKeys_take_eq_drop st.docCache _ hnd
  · intro st hne hnd
    have heq := evictLruDocuments_accessTimes_eq st hne
    have hperm : (sortByTime st.accessTimes).Perm st.accessTimes := List.perm_insertionSort _ _
    have hlenS : (sortByTime st.accessTimes).length = st.accessTimes.length := hperm.length_eq
    have hsurv := evictLruDocuments_surviving_perm st.accessTimes hnd
    constructor
    · have hL : (evictLruDocuments st).accessTimes.length
        = ((sortByTime st.accessTimes).drop
            (max 1 ((sortByTime st.accessTimes).length / 4))).length := by
        rw [heq]
        exact hsurv.length_eq
      rw [hL, List.length_drop, hlenS]
      have h1 : 1 ≤ st.accessTimes.length := by
        cases hq : st.accessTimes with
        | nil => exact absurd hq hne
        | cons p t => simp [hq]
      have hdle : st.accessTimes.length / 4 ≤ st.accessTimes.length := Nat.div_le_self _ _
      omega
    · intro a b ta tb ha hb hlt hsa
      have hma : (a, ta) ∈ st.accessTimes := dictGet_some_mem ha
      have hmb : (b, tb) ∈ st.accessTimes := dictGet_some_mem hb
      have hga := dictGet_filter_of_mem_nodup (fun p : AKey × Nat =>
        !((((sortByTime st.accessTimes).take
          (max 1 ((sortByTime st.accessTimes).length / 4))).map (·.1)).any
            (fun x => decide (x = p.1)))) hnd hma
      have hgb := dictGet_filter_of_mem_nodup (fun p : AKey × Nat =>
        !((((sortByTime st.accessTimes).take
          (max 1 ((sortByTime st.accessTimes).length / 4))).map (·.1)).any
            (fun x => decide (x = p.1)))) hnd hmb
      rw [heq] at hsa ⊢
      rw [hga] at hsa
      have hsa2 : (if (!((((sortByTime st.accessTimes).take
          (max 1 ((sortByTime st.accessTimes).length / 4))).map (·.1)).any
            (fun x => decide (x = a)))) = true
          then some ta else none) ≠ none := hsa
      have hpa : (!((((sortByTime st.accessTimes).take
          (max 1 ((sortByTime st.accessTimes).length / 4))).map (·.1)).any
            (fun x => decide (x = a)))) = true := by
        cases hp : (!((((sortByTime st.accessTimes).take
            (max 1 ((sortByTime st.accessTimes).length / 4))).map (·.1)).any
              (fun x => decide (x = a))))
        · rw [hp] at hsa2
          simp at hsa2
        · rfl
      have hanyA : ((((sortByTime st.accessTimes).take
          (max 1 ((sortByTime st.accessTimes).length / 4))).map (·.1)).any
            (fun x => decide (x = a))) = false := by
        cases hp : ((((sortByTime st.accessTimes).take
            (max 1 ((sortByTime st.accessTimes).length / 4))).map (·.1)).any
              (fun x => decide (x = a)))
        · rfl
        · rw [hp] at hpa
          cases hpa
      have hpb : (!((((sortByTime st.accessTimes).take
          (max 1 ((sortByTime st.accessTimes).length / 4))).map (·.1)).any
            (fun x => decide (x = b)))) = true := by
        cases hp : ((((sortByTime st.accessTimes).take
            (max 1 ((sortByTime st.accessTimes).length / 4))).map (·.1)).any
              (fun x => decide (x = b)))
        · rfl
        · exfalso
          obtain ⟨x, hx, hxb⟩ := List.any_eq_true.mp hp
          obtain ⟨e, heTake, he1⟩ := List.mem_map.mp hx
          have hxb2 : x = b := by simpa using hxb
          have heAcc : e ∈ st.accessTimes :=
            hperm.mem_iff.mp (List.mem_of_mem_take heTake)
          have hge : dictGet e.1 st.accessTimes = some e.2 :=
            dictGet_eq_some_of_mem_nodup hnd (by rw [show (e.1, e.2) = e from rfl]; exact heAcc)
          rw [he1, hxb2] at hge
          have he2 : e.2 = tb := by
            rw [hb] at hge
            exact (Option.some.injEq _ _).mp hge.symm
          have haNot : ∀ e' ∈ (sortByTime st.accessTimes).take
              (max 1 ((sortByTime st.accessTimes).length / 4)), e'.1 ≠ a := by
            intro e' he' hcontra
            have hmem : (e'.1 : AKey) ∈ ((sortByTime st.accessTimes).take
                (max 1 ((sortByTime st.accessTimes).length / 4))).map (·.1) :=
              List.mem_map_of_mem _ he'
            have h3 : ((((sortByTime st.accessTimes).take
                (max 1 ((sortByTime st.accessTimes).length / 4))).map (·.1)).any
                  (fun x => decide (x = a))) = true :=
              List.any_eq_true.mpr ⟨e'.1, hmem, by simp [hcontra]⟩
            rw [hanyA] at h3
            cases h3
          have hmaS : (a, ta) ∈ (sortByTime st.accessTimes).take
                (max 1 ((sortByTime st.accessTimes).length / 4))
              ++ (sortByTime st.accessTimes).drop
                (max 1 ((sortByTime st.accessTimes).length / 4)) := by
            rw [List.take_append_drop]
            exact hperm.mem_iff.mpr hma
          rcases List.mem_append.mp hmaS with hta | hda
          · exact haNot (a, ta) hta rfl
          · have hsorted : List.Sorted entryLe (sortByTime st.accessTimes) :=
              List.sorted_insertionSort entryLe st.accessTimes
            have hpw : List.Pairwise entryLe ((sortByTime st.accessTimes).take
                (max 1 ((sortByTime st.accessTimes).length / 4))
                ++ (sortByTime st.accessTimes).drop
                  (max 1 ((sortByTime st.accessTimes).length / 4))) := by
              rw [List.take_append_drop]
              exact hsorted
            have hle : entryLe e (a, ta) :=
              (List.pairwise_append.mp hpw).2.2 e heTake (a, ta) hda
            have : tb ≤ ta := by
              have := hle
              unfold entryLe at this
              rw [he2] at this
              exact this
            omega
      rw [hgb]
      show (if (!((((sortByTime st.accessTimes).take
          (max 1 ((sortByTime st.accessTimes).length / 4))).map (·.1)).any
            (fun x => decide (x = b)))) = true
          then some tb else none) ≠ none
      rw [hpb]
      simp
  · intro st i0 r0 restI hfilter hI hnd
    have hempty : (st.accessTimes.filter (fun p => p.1.isImage)).isEmpty = true := by
      rw [hfilter]
      rfl
    have hknotin : ∀ p ∈ restI, p.1 ≠ i0 := by
      intro p hp he
      have h2 : (i0 :: restI.map Prod.fst).Nodup := by
        rw [hI] at hnd
        simpa using hnd
      exact (List.nodup_cons.mp h2).1 (he ▸ List.mem_map_of_mem Prod.fst hp)
    simp only [evictLruImages, if_pos hempty, hI]
    rw [← hI]
    show (dictDel i0 st.imageCache) = restI
    rw [hI]
    exact dictDel_cons_self i0 r0 restI hknotin

/-- Witness for c8_theorem: all four conjuncts evaluated at small concrete
states — a full one-entry cache where the insert-path eviction drops the
single first entry, a two-entry cache evicted by the empty-access-times
fallback, a three-entry access-time map where the oldest record is dropped
and the two more recent ones survive, and a two-image cache where the
image fallback drops the first image. -/
theorem c8_theorem_witness :
    (cacheDocument (DKey.pair 2 true) (DCVal.cachedContent "y")
      { initDMState [] [] with
        docCache := [(DKey.pair 1 true, DCVal.cachedContent "x")],
        cacheMax := 1 }).docCache
      = [] ++ [(DKey.pair 2 true, DCVal.cachedContent "y")] ∧
    (evictLruDocuments { initDMState [] [] with
        docCache := [(DKey.pair 1 true, DCVal.cachedContent "x"),
          (DKey.pair 2 true, DCVal.cachedContent "y")],
        cacheMax := 4 }).docCache
      = [(DKey.pair 1 true, DCVal.cachedContent "x"),
          (DKey.pair 2 true, DCVal.cachedContent "y")].drop (max 1 (4 / 4)) ∧
    ((evictLruDocuments { initDMState [] [] with
        accessTimes := [(AKey.content 1, 5), (AKey.image 2, 1),
          (AKey.content 3, 9)] }).accessTimes.length + max 1 (3 / 4) = 3 ∧
      dictGet (AKey.content 3) (evictLruDocuments { initDMState [] [] with
        accessTimes := [(AKey.content 1, 5), (AKey.image 2, 1),
          (AKey.content 3, 9)] }).accessTimes ≠ none) ∧
    (evictLruImages { initDMState [] [] with
        imageCache := [(1, ("f", [0])), (2, ("g", [1]))] }).imageCache
      = [(2, ("g", [1]))] := by
  have h3 := c8_theorem.2.2.1 { initDMState [] [] with
    accessTimes := [(AKey.content 1, 5), (AKey.image 2, 1), (AKey.content 3, 9)] }
    (by decide) (by decide)
  exact ⟨c8_theorem.1 _ (DKey.pair 2 true) (DCVal.cachedContent "y")
      (DKey.pair 1 true) (DCVal.cachedContent "x") [] rfl (by decide) (by decide)
      (by decide),
    c8_theorem.2.1 _ rfl (by decide),
    ⟨h3.1, h3.2 (AKey.content 1) (AKey.content 3) 5 9 (by decide) (by decide)
      (by decide) (by decide)⟩,
    c8_theorem.2.2.2 _ 1 ("f", [0]) [(2, ("g", [1]))] rfl rfl (by decide)⟩

set_option maxRecDepth 40000 in
/-- C8 counterexample: with the document cache filled to its capacity of
100 and no access-time data, a get(100, True) miss triggers the
_cache_document eviction, which removes exactly one entry — the cache
stays at 100 entries, whereas the claimed uniform 25%% fallback policy
would leave 75 entries plus the fresh insert, i.e. 76. -/
theorem c8_counterexample :
    fillDocCache.docCache.length = 100 ∧
    fillDocCache.cacheMax = 100 ∧
    fillDocCache.accessTimes = [] ∧
    c8AfterGet.docCache.length = 100 ∧
    (specLruFallbackEvict fillDocCache.docCache).length = 75 ∧
    ¬ (100 = 75 + 1) := by decide
